import Mathlib

/-!
Serpent block cipher (`source/ak_serpent.c`): embedding and verification.

The C functions of `ak_serpent.c` are embedded as pure functions.

* An `ak_uint32` is a `Nat` below `2 ^ 32`; every operation that can leave that range in C
  is reduced `% 2 ^ 32` explicitly.
* Memory that the code reads and writes through `ak_uint32 *` (the expanded keys behind
  `skey->data`, the local arrays) is a list of 32-bit words.  Every access of the file to that
  memory is 4-byte aligned and every size handed to `ak_ptr_wipe` (`sizeof` of a pointer, 528,
  560, 4) is a multiple of 4, so a statement about the bytes of such a region is a statement
  about its words.
* The key bytes are combined into words in little-endian order, as `*(ak_uint32 *)tmp_key_part`
  does on the little-endian targets of the library.
* The collaborators that live outside the file (`ak_ptr_wipe`, `ak_aligned_malloc`,
  `sizeof (ak_uint32 *)`) are fields of an environment `Env` over which the theorems quantify.
-/

namespace Serpent

/-! ## Constants and primitives -/

/-- `serpent_s_box[32][16]`: eight initialised rows, the other 24 rows are zero-filled by C. -/
def serpent_s_box : List (List Nat) :=
  [ [ 3, 8,15, 1,10, 6, 5,11,14,13, 4, 2, 7, 0, 9,12],
    [15,12, 2, 7, 9, 0, 5,10, 1,11,14, 8, 6,13, 3, 4],
    [ 8, 6, 7, 9, 3,12,10,15,13, 1,14, 4, 0,11, 5, 2],
    [ 0,15,11, 8,12, 9, 6, 3,13, 1, 2, 4,10, 7, 5,14],
    [ 1,15, 8, 3,12, 0,11, 6, 2, 5, 4,10, 9,14, 7,13],
    [15, 5, 2,11, 4,10, 9,12, 0, 3,14, 8,13, 6, 7, 1],
    [ 7, 2,12, 5, 8, 4, 6,11,14, 9, 1,15,13, 3,10, 0],
    [ 1,13,15, 0,14, 8, 2,11, 7, 4,12,10, 9, 3, 5, 6] ]
  ++ List.replicate 24 (List.replicate 16 0)

/-- `serpent_inv_s_box[32][16]`: eight initialised rows, the other 24 rows are zero. -/
def serpent_inv_s_box : List (List Nat) :=
  [ [13, 3,11, 0,10, 6, 5,12, 1,14, 4, 7,15, 9, 8, 2],
    [ 5, 8, 2,14,15, 6,12, 3,11, 4, 7, 9, 1,13,10, 0],
    [12, 9,15, 4,11,14, 1, 2, 0, 3, 6,13, 5, 8,10, 7],
    [ 0, 9,10, 7,11,14, 6,13, 3, 5,12, 2, 4, 8,15, 1],
    [ 5, 0, 8, 3,10, 9, 7,14, 2,12,11, 6, 4,15,13, 1],
    [ 8,15, 2, 9, 4, 1,13,14,11, 6, 5, 3, 7,12,10, 0],
    [15,10, 1,13, 5, 3, 6, 0, 4, 9,14, 7, 2,12, 8,11],
    [ 3, 0, 6,13, 9,14,15, 8, 5,12,11, 7,10, 1, 4, 2] ]
  ++ List.replicate 24 (List.replicate 16 0)

/-- The golden ratio constant `phi`. -/
def phi : Nat := 0x9e3779b9

/-- Table access `t[r][c]`. -/
def tab (t : List (List Nat)) (r c : Nat) : Nat := (t.getD r []).getD c 0

/-- The C expression `x << s` on `ak_uint32`: the bits shifted past bit 31 are dropped. -/
def shl32 (x s : Nat) : Nat := (x <<< s) % 2 ^ 32

/-- The C expression `(x >> j) & 1`. -/
def bit (x j : Nat) : Nat := (x >>> j) &&& 1

/-- `ak_uint32_cyclic_bit_shift (elem, shift)`:
`((elem << shift) | (elem >> (32 - shift))) & 0xffffffff`. -/
def ak_uint32_cyclic_bit_shift (elem shift : Nat) : Nat :=
  (shl32 elem shift ||| (elem >>> (32 - shift))) &&& 0xffffffff

/-- Four consecutive `ak_uint32` words: a four-element `ak_uint32` array, or an `ak_uint128`
block or round key read through an `ak_uint32 *`. -/
structure Words4 where
  w0 : Nat
  w1 : Nat
  w2 : Nat
  w3 : Nat
deriving DecidableEq, Repr

/-- Every word of the array is a 32-bit value. -/
def Words4.wf (x : Words4) : Prop :=
  x.w0 < 2 ^ 32 ∧ x.w1 < 2 ^ 32 ∧ x.w2 < 2 ^ 32 ∧ x.w3 < 2 ^ 32

instance (x : Words4) : Decidable x.wf := by
  unfold Words4.wf
  infer_instance

/-- Word-wise `a[j] ^ b[j]`, `j = 0..3`. -/
def xor4 (a b : Words4) : Words4 :=
  ⟨a.w0 ^^^ b.w0, a.w1 ^^^ b.w1, a.w2 ^^^ b.w2, a.w3 ^^^ b.w3⟩

/-- The pointer `(ak_uint32 *)(keys + i)` read at `[0..3]`: round key `i` of the expanded
keys. -/
def key_part (keys : List Nat) (i : Nat) : Words4 :=
  ⟨keys.getD (4 * i) 0, keys.getD (4 * i + 1) 0, keys.getD (4 * i + 2) 0,
   keys.getD (4 * i + 3) 0⟩

/-- The S-box column index gathered at bit position `j`:
`((s[0] >> j) & 1) << 0 | ((s[1] >> j) & 1) << 1 | ((s[2] >> j) & 1) << 2 |
 ((s[3] >> j) & 1) << 3`. -/
def gather (s : Words4) (j : Nat) : Nat :=
  (bit s.w0 j <<< 0) ||| (bit s.w1 j <<< 1) ||| (bit s.w2 j <<< 2) ||| (bit s.w3 j <<< 3)

/-- One pass of the inner `j` loop of the cipher: `el = t[r][...]` and
`acc[k] |= ((el >> k) & 1) << j` for `k = 0..3`. -/
def sbox_step (t : List (List Nat)) (r : Nat) (src acc : Words4) (j : Nat) : Words4 :=
  let el := tab t r (gather src j)
  ⟨acc.w0 ||| shl32 ((el >>> 0) &&& 1) j,
   acc.w1 ||| shl32 ((el >>> 1) &&& 1) j,
   acc.w2 ||| shl32 ((el >>> 2) &&& 1) j,
   acc.w3 ||| shl32 ((el >>> 3) &&& 1) j⟩

/-- The loop `for (j = 0; j < 32; ++j)` of the cipher over `sbox_step`. -/
def sbox_loop (t : List (List Nat)) (r : Nat) (src acc : Words4) : Words4 :=
  (List.range 32).foldl (sbox_step t r src) acc

/-! ## Encryption -/

/-- The `if (i < 31)` branch of `ak_serpent_encrypt`, statement by statement. -/
def encrypt_linear (d : Words4) : Words4 :=
  let d0 := ak_uint32_cyclic_bit_shift d.w0 13
  let d2 := ak_uint32_cyclic_bit_shift d.w2 3
  let d1 := d.w1 ^^^ d0 ^^^ d2
  let d3 := d.w3 ^^^ d2 ^^^ shl32 d0 3
  let d1 := ak_uint32_cyclic_bit_shift d1 1
  let d3 := ak_uint32_cyclic_bit_shift d3 7
  let d0 := d0 ^^^ d1 ^^^ d3
  let d2 := d2 ^^^ d3 ^^^ shl32 d1 7
  let d0 := ak_uint32_cyclic_bit_shift d0 5
  let d2 := ak_uint32_cyclic_bit_shift d2 22
  ⟨d0, d1, d2, d3⟩

/-- Variables of `ak_serpent_encrypt` that live across rounds: `original_data_part` and the
output buffer (`none` until the last round writes it). -/
structure EncState where
  original_data_part : Words4
  out : Option Words4
deriving DecidableEq, Repr

/-- Body of the loop `for (i = 0; i < 32; ++i)` of `ak_serpent_encrypt`. -/
def encrypt_round (keys : List Nat) (st : EncState) (i : Nat) : EncState :=
  let sh_data_part := xor4 st.original_data_part (key_part keys i)
  let original_data_part := sbox_loop serpent_s_box (i % 8) sh_data_part ⟨0, 0, 0, 0⟩
  if i < 31 then
    ⟨encrypt_linear original_data_part, st.out⟩
  else
    ⟨original_data_part, some (xor4 original_data_part (key_part keys 32))⟩

/-- The rounds of `ak_serpent_encrypt` over the expanded keys `keys` (`skey->data`). -/
def encrypt_rounds (keys : List Nat) (inp : Words4) : EncState :=
  (List.range 32).foldl (encrypt_round keys) ⟨inp, none⟩

/-! ## Decryption -/

/-- The `if (i < 31)` branch of `ak_serpent_decrypt`, statement by statement. -/
def decrypt_linear (d : Words4) : Words4 :=
  let d2 := ak_uint32_cyclic_bit_shift d.w2 10 ^^^ d.w3 ^^^ shl32 d.w1 7
  let d0 := ak_uint32_cyclic_bit_shift d.w0 27 ^^^ d.w1 ^^^ d.w3
  let d3 := ak_uint32_cyclic_bit_shift d.w3 25
  let d1 := ak_uint32_cyclic_bit_shift d.w1 31
  let d3 := d3 ^^^ d2 ^^^ shl32 d0 3
  let d1 := d1 ^^^ d0 ^^^ d2
  let d2 := ak_uint32_cyclic_bit_shift d2 29
  let d0 := ak_uint32_cyclic_bit_shift d0 19
  ⟨d0, d1, d2, d3⟩

/-- Variables of `ak_serpent_decrypt` that live across rounds.  `key_part` is the index of the
round key the pointer `key_part` points at. -/
structure DecState where
  original_data_part : Words4
  sh_data_part : Words4
  key_part : Nat
deriving DecidableEq, Repr

/-- Body of the loop `for (i = 31; i >= 0; --i)` of `ak_serpent_decrypt`. -/
def decrypt_round (keys : List Nat) (st : DecState) (i : Nat) : DecState :=
  let kp := if i < 31 then i else 32
  let original_data_part :=
    if i < 31 then decrypt_linear st.original_data_part
    else xor4 st.original_data_part (key_part keys 32)
  let sh_data_part := sbox_loop serpent_inv_s_box (i % 8) original_data_part st.sh_data_part
  let kp := if i = 31 then i else kp
  ⟨xor4 sh_data_part (key_part keys kp), ⟨0, 0, 0, 0⟩, kp⟩

/-- The rounds of `ak_serpent_decrypt`: `i` runs from 31 down to 0.  `key_part` is not
initialised before the loop; every round assigns it before reading it. -/
def decrypt_rounds (keys : List Nat) (inp : Words4) : DecState :=
  (List.range 32).reverse.foldl (decrypt_round keys) ⟨inp, ⟨0, 0, 0, 0⟩, 0⟩

/-! ## The key context and its collaborators -/

/-- Modelled from the spec: the error codes of `libakrypt-internal.h`, a header that is not
among the sources.  The constructors named after `ak_error_*` constants are the codes the file
names; `other` stands for every other code of the header (the spec's InvalidKeyLength and
WipeFailure among them). -/
inductive ak_error where
  | ak_error_ok
  | ak_error_null_pointer
  | ak_error_wrong_key_icode
  | ak_error_out_of_memory
  | other (code : Int)
deriving DecidableEq, Repr

/-- Modelled from the spec: the error-reporting sink `ak_error_message (code, function,
message)` of the library, not among the sources; it reports the message and hands the code
back unchanged. -/
def ak_error_message (code : ak_error) : ak_error := code

/-- What one call `ak_ptr_wipe (ptr, size, &skey->generator)` does: the code it returns, the
words it leaves in the region (word `k` of the region becomes `written[k]`), and the new state
of the generator. -/
structure WipeResult where
  error : ak_error
  written : List Nat
  generator : Nat

/-- Collaborators outside the file.  `ak_ptr_wipe` is given the words currently in the region,
the size in bytes and the state of the generator; `ak_aligned_malloc` is given the requested size
and says whether it returns a non-null pointer; `sizeof_ptr` is `sizeof (ak_uint32 *)`. -/
structure Env where
  ak_ptr_wipe : List Nat → Nat → Nat → WipeResult
  ak_aligned_malloc : Nat → Bool
  sizeof_ptr : Nat

/-- The fields of `struct skey` that the file uses.  `data` is `none` for `NULL`, else the
words of the allocated block; `check_icode` is the value of `skey->check_icode (skey)`;
`generator` is the state of `skey->generator`. -/
structure skey where
  key : List Nat
  key_size : Nat
  check_icode : Bool
  data : Option (List Nat)
  generator : Nat
deriving DecidableEq, Repr

/-- Memory `mem` after `n` words starting at word `off` were overwritten with `written`. -/
def store_words (mem : List Nat) (off n : Nat) (written : List Nat) : List Nat :=
  (List.range mem.length).map fun k =>
    if off ≤ k ∧ k < off + n then written.getD (k - off) 0 % 2 ^ 32 else mem.getD k 0

/-- Result of a call on a context: the returned code, the context afterwards (`none` for a
null pointer), the contents, at the time of release, of every block passed to `free`, and the
number of calls of `ak_aligned_malloc`. -/
structure Outcome where
  error : ak_error
  skey : Option skey
  freed : List (List Nat)
  mallocs : Nat
deriving DecidableEq, Repr

/-- `sizeof (ak_serpent_expanded_keys)` in bytes. -/
def sizeof_expanded_keys : Nat := 33 * 16

/-- `ak_serpent_delete_keys (skey)`. -/
def ak_serpent_delete_keys (env : Env) (p : Option skey) : Outcome :=
  match p with
  | none => ⟨ak_error_message .ak_error_null_pointer, none, [], 0⟩
  | some s =>
    match s.data with
    | some d =>
      let r := env.ak_ptr_wipe d sizeof_expanded_keys s.generator
      let d := store_words d 0 (sizeof_expanded_keys / 4) r.written
      let d := if r.error ≠ .ak_error_ok then
          store_words d 0 (sizeof_expanded_keys / 4) []
        else d
      ⟨r.error, some { s with data := none, generator := r.generator }, [d], 0⟩
    | none => ⟨.ak_error_ok, some s, [], 0⟩

/-- The first loop of `ak_serpent_schedule_keys`: `original_divided_key[i]`, `i = 0..7`, is
`*(ak_uint32 *)tmp_key_part` with `tmp_key_part[j] = skey->key[i * 4 + j]`. -/
def load_key (key : List Nat) : List Nat :=
  (List.range 8).foldl (fun odk i =>
    odk.set i (key.getD (i * 4 + 0) 0 % 256 + 2 ^ 8 * (key.getD (i * 4 + 1) 0 % 256)
      + 2 ^ 16 * (key.getD (i * 4 + 2) 0 % 256) + 2 ^ 24 * (key.getD (i * 4 + 3) 0 % 256)))
    (List.replicate 140 0)

/-- The second loop of `ak_serpent_schedule_keys`, `i = 8..139`. -/
def expand_key (odk : List Nat) : List Nat :=
  (List.range' 8 132).foldl (fun odk i =>
    odk.set i (ak_uint32_cyclic_bit_shift
      (odk.getD (i - 8) 0 ^^^ odk.getD (i - 5) 0 ^^^ odk.getD (i - 3) 0 ^^^ odk.getD (i - 1) 0
        ^^^ phi ^^^ (i - 8)) 11)) odk

/-- `original_divided_key` after the first two loops of `ak_serpent_schedule_keys`. -/
def original_divided_key (key : List Nat) : List Nat := expand_key (load_key key)

/-- The four words `original_divided_key[8 + k + 4 * i]`, `k = 0..3`. -/
def prekey_group (odk : List Nat) (i : Nat) : Words4 :=
  ⟨odk.getD (8 + 0 + 4 * i) 0, odk.getD (8 + 1 + 4 * i) 0, odk.getD (8 + 2 + 4 * i) 0,
   odk.getD (8 + 3 + 4 * i) 0⟩

/-- One pass of the `j` loop of the third loop of `ak_serpent_schedule_keys`; `tmp` is an
`ak_uint8`. -/
def schedule_step (odk : List Nat) (i : Nat) (acc : Words4) (j : Nat) : Words4 :=
  let tmp := tab serpent_s_box ((32 + 3 - i) % 8) (gather (prekey_group odk i) j) % 256
  ⟨acc.w0 ||| shl32 ((tmp >>> 0) &&& 1) j,
   acc.w1 ||| shl32 ((tmp >>> 1) &&& 1) j,
   acc.w2 ||| shl32 ((tmp >>> 2) &&& 1) j,
   acc.w3 ||| shl32 ((tmp >>> 3) &&& 1) j⟩

/-- Row `sub_keys[i]` after the third loop; the row starts zeroed. -/
def sub_keys_row (odk : List Nat) (i : Nat) : Words4 :=
  (List.range 32).foldl (schedule_step odk i) ⟨0, 0, 0, 0⟩

/-- The array `sub_keys[33][4]` after the third loop. -/
def sub_keys (odk : List Nat) : List Words4 := (List.range 33).map (sub_keys_row odk)

/-- The words of an array of `ak_uint128` in memory order. -/
def flatten : List Words4 → List Nat
  | [] => []
  | x :: l => x.w0 :: x.w1 :: x.w2 :: x.w3 :: flatten l

/-- The 33 round keys that `ak_serpent_schedule_keys` stores behind `skey->data` for the key
bytes `key`: `result_data[i] = sub_keys[i]`. -/
def expanded_keys (key : List Nat) : List Nat := flatten (sub_keys (original_divided_key key))

/-- `ak_serpent_schedule_keys (skey)`. -/
def ak_serpent_schedule_keys (env : Env) (p : Option skey) : Outcome :=
  match p with
  | none => ⟨ak_error_message .ak_error_null_pointer, none, [], 0⟩
  | some s =>
    if s.key_size ≠ 32 then ⟨ak_error_message .ak_error_null_pointer, some s, [], 0⟩
    else if s.check_icode ≠ true then
      ⟨ak_error_message .ak_error_wrong_key_icode, some s, [], 0⟩
    else
      let del : Outcome :=
        if s.data ≠ none then ak_serpent_delete_keys env (some s)
        else ⟨.ak_error_ok, some s, [], 0⟩
      let s := del.skey.getD s
      if env.ak_aligned_malloc sizeof_expanded_keys = false then
        ⟨ak_error_message .ak_error_out_of_memory, some { s with data := none }, del.freed, 1⟩
      else
        let odk := original_divided_key s.key
        let result_data := flatten (sub_keys odk)
        let r1 := env.ak_ptr_wipe (flatten (sub_keys odk)) (33 * 4 * 4) s.generator
        let r2 := env.ak_ptr_wipe odk (140 * 4) r1.generator
        let r3 := env.ak_ptr_wipe [odk.getD 7 0] 4 r2.generator
        ⟨.ak_error_ok, some { s with data := some result_data, generator := r3.generator },
          del.freed, 1⟩

/-- `ak_serpent_encrypt (skey, in, out)`: the block left in `out`.  `none` when `skey->data`
is `NULL`, where the C code dereferences a null pointer. -/
def ak_serpent_encrypt (s : skey) (inp : Words4) : Option Words4 :=
  match s.data with
  | none => none
  | some keys => (encrypt_rounds keys inp).out

/-- `ak_serpent_decrypt (skey, in, out)`: the block left in `out` and the context after the
call, which ends with `ak_ptr_wipe (key_part, sizeof (key_part), &skey->generator)`.  `none`
when `skey->data` is `NULL`. -/
def ak_serpent_decrypt (env : Env) (s : skey) (inp : Words4) : Option (Words4 × skey) :=
  match s.data with
  | none => none
  | some keys =>
    let st := decrypt_rounds keys inp
    let off := 4 * st.key_part
    let n := env.sizeof_ptr / 4
    let r := env.ak_ptr_wipe ((keys.drop off).take n) env.sizeof_ptr s.generator
    some (st.original_data_part,
      { s with data := some (store_words keys off n r.written), generator := r.generator })

/-! ## The fixture of `examples/test-serpent.c` -/

/-- The array `key` of `examples/test-serpent.c`. -/
def test_key : List Nat :=
  [0xef, 0xcd, 0xab, 0x89, 0x67, 0x45, 0x23, 0x01, 0x10, 0x32, 0x54, 0x76, 0x98, 0xba, 0xdc, 0xfe,
   0x77, 0x66, 0x55, 0x44, 0x33, 0x22, 0x11, 0x00, 0xff, 0xee, 0xdd, 0xcc, 0xbb, 0xaa, 0x99, 0x88]

/-- The array `in` of `examples/test-serpent.c`
(`88 99 aa bb cc dd ee ff 00 77 66 55 44 33 22 11`) as the four words `((ak_uint32 *)in)[0..3]`. -/
def test_in : Words4 := ⟨0xbbaa9988, 0xffeeddcc, 0x55667700, 0x11223344⟩

/-- An environment for the examples: 8-byte pointers, an allocator that succeeds, and a wipe
that reports success and leaves zero words. -/
def test_env : Env :=
  ⟨fun _ size gen => ⟨.ak_error_ok, List.replicate (size / 4) 0, gen⟩, fun _ => true, 8⟩

/-- The key context of `examples/test-serpent.c` when `ak_serpent_schedule_keys` is called on
it: the 32 key bytes, a valid integrity code, no expanded keys yet. -/
def test_skey : skey := ⟨test_key, 32, true, none, 0⟩

/-- An array of 33 round keys that no key schedule produced: 132 equal words. -/
def demo_keys : List Nat := List.replicate 132 0x01234567

/-- The context of `examples/test-serpent.c` after `ak_serpent_schedule_keys` stored the round
keys of `test_key`. -/
def test_scheduled : skey := { test_skey with data := some (expanded_keys test_key) }

/-- The output blocks of two consecutive calls of `ak_serpent_decrypt` with the same input `C`
on one context. -/
def decrypt_twice (env : Env) (s : skey) (C : Words4) : Option (Words4 × Words4) :=
  match ak_serpent_decrypt env s C with
  | none => none
  | some (P1, s1) =>
    match ak_serpent_decrypt env s1 C with
    | none => none
    | some (P2, _) => some (P1, P2)

/-- The outputs of `ak_serpent_encrypt` of the block `B` before and after a call of
`ak_serpent_decrypt` with input `C` on the same context. -/
def encrypt_around_decrypt (env : Env) (s : skey) (B C : Words4) : Option (Words4 × Words4) :=
  match ak_serpent_encrypt s B, ak_serpent_decrypt env s C with
  | some E1, some (_, s1) =>
    match ak_serpent_encrypt s1 B with
    | some E2 => some (E1, E2)
    | none => none
  | _, _ => none

/-! ## Reference definitions, written from sections 4.1 and 4.2 of the specification -/

/-- Specification: 32-bit cyclic left rotation of `x` by `s`,
`((x * 2^s) mod 2^32) + (x div 2^(32-s))`. -/
def spec_rotl (x s : Nat) : Nat := (x * 2 ^ s) % 2 ^ 32 + x / 2 ^ (32 - s)

/-- Specification: plain 32-bit left shift, the overflowed bits are discarded. -/
def spec_shl (x s : Nat) : Nat := (x * 2 ^ s) % 2 ^ 32

/-- Specification: bit `j` of a word. -/
def spec_bit (x j : Nat) : Nat := x / 2 ^ j % 2

/-- Specification: the 4-bit value formed by bit `j` of words 0..3, word 0 the least
significant bit. -/
def spec_nibble (x : Words4) (j : Nat) : Nat :=
  spec_bit x.w0 j + 2 * spec_bit x.w1 j + 4 * spec_bit x.w2 j + 8 * spec_bit x.w3 j

/-- Specification: the 32-bit word whose bit `j` is `b j`, `j = 0..31`. -/
def spec_word (b : Nat → Nat) : Nat := ((List.range 32).map fun j => 2 ^ j * b j).sum

/-- Specification, step (b): at every bit position `j` the 4-bit value of the state is
replaced by its image under `serpent_s_box[r]`, bit `k` of the image going to bit `j` of
word `k`. -/
def spec_substitute (r : Nat) (x : Words4) : Words4 :=
  ⟨spec_word fun j => spec_bit (tab serpent_s_box r (spec_nibble x j)) 0,
   spec_word fun j => spec_bit (tab serpent_s_box r (spec_nibble x j)) 1,
   spec_word fun j => spec_bit (tab serpent_s_box r (spec_nibble x j)) 2,
   spec_word fun j => spec_bit (tab serpent_s_box r (spec_nibble x j)) 3⟩

/-- Specification, step (c): the forward linear transform. -/
def spec_linear (w : Words4) : Words4 :=
  let w0 := spec_rotl w.w0 13
  let w2 := spec_rotl w.w2 3
  let w1 := w.w1 ^^^ w0 ^^^ w2
  let w3 := w.w3 ^^^ w2 ^^^ spec_shl w0 3
  let w1 := spec_rotl w1 1
  let w3 := spec_rotl w3 7
  let w0 := w0 ^^^ w1 ^^^ w3
  let w2 := w2 ^^^ w3 ^^^ spec_shl w1 7
  let w0 := spec_rotl w0 5
  let w2 := spec_rotl w2 22
  ⟨w0, w1, w2, w3⟩

/-- Specification: round `i` of section 4.2 over the round keys `rk 0 .. rk 32`. -/
def spec_round (rk : Nat → Words4) (state : Words4) (i : Nat) : Words4 :=
  let a := xor4 state (rk i)
  let b := spec_substitute (i % 8) a
  if i < 31 then spec_linear b else xor4 b (rk 32)

/-- Specification: the encryption of section 4.2, rounds `i = 0..31`. -/
def spec_encrypt (rk : Nat → Words4) (B : Words4) : Words4 :=
  (List.range 32).foldl (spec_round rk) B

/-- Specification, section 4.1 step 1: `prekey[i]`, `i = 0..7`, is the `i`-th 4-byte group of
the key read as a little-endian word. -/
def spec_key_word (key : List Nat) (i : Nat) : Nat :=
  key.getD (4 * i) 0 + 2 ^ 8 * key.getD (4 * i + 1) 0 + 2 ^ 16 * key.getD (4 * i + 2) 0
    + 2 ^ 24 * key.getD (4 * i + 3) 0

/-- Specification, section 4.1 step 2: the prekey recurrence. -/
def spec_prekey (key : List Nat) (i : Nat) : Nat :=
  if h : i < 8 then spec_key_word key i
  else
    spec_rotl (spec_prekey key (i - 8) ^^^ spec_prekey key (i - 5) ^^^ spec_prekey key (i - 3)
      ^^^ spec_prekey key (i - 1) ^^^ 0x9e3779b9 ^^^ (i - 8)) 11
termination_by i
decreasing_by all_goals omega

/-- Specification, section 4.1 step 3: the four prekey words of round `i`. -/
def spec_prekey_group (key : List Nat) (i : Nat) : Words4 :=
  ⟨spec_prekey key (8 + 4 * i), spec_prekey key (8 + 4 * i + 1), spec_prekey key (8 + 4 * i + 2),
   spec_prekey key (8 + 4 * i + 3)⟩

/-- An environment whose wipe fails with the code `-1` on every call (it leaves zero words);
pointers are 8 bytes and allocation succeeds. -/
def failing_wipe_env : Env :=
  ⟨fun _ size gen => ⟨.other (-1), List.replicate (size / 4) 0, gen⟩, fun _ => true, 8⟩

/-- The second arguments of all calls of `ak_uint32_cyclic_bit_shift` in the file: 11 in the
key schedule, 13, 3, 1, 7, 5, 22 in encryption, 10, 27, 25, 31, 29, 19 in decryption. -/
def rotation_amounts : List Nat := [11, 13, 3, 1, 7, 5, 22, 10, 27, 25, 31, 29, 19]

/-- The body of the encryption loop after the XOR with round key `i`: the S-box pass and, for
`i < 31`, the linear transform.  It does not read the round keys. -/
def encrypt_round_core (i : Nat) (sh_data_part : Words4) : Words4 :=
  if i < 31 then encrypt_linear (sbox_loop serpent_s_box (i % 8) sh_data_part ⟨0, 0, 0, 0⟩)
  else sbox_loop serpent_s_box (i % 8) sh_data_part ⟨0, 0, 0, 0⟩

/-- Round keys that agree with `demo_keys` on rounds `0..31` and differ in round key 32. -/
def demo_keys_other : List Nat := List.replicate 128 0x01234567 ++ [1, 2, 3, 4]

/-! ## A checked embedding: every array access returns an `Option` -/

/-- Checked table access `t[r][c]`: `none` unless `r` is one of the eight initialised rows
`0..7` and `c` one of the columns `0..15`. -/
def tab_checked (t : List (List Nat)) (r c : Nat) : Option Nat :=
  if r < 8 ∧ c < 16 then (t[r]?).bind fun row => row[c]? else none

/-- `sbox_step` with the checked table access. -/
def sbox_step_checked (t : List (List Nat)) (r : Nat) (src acc : Words4) (j : Nat) :
    Option Words4 :=
  (tab_checked t r (gather src j)).map fun el =>
    ⟨acc.w0 ||| shl32 ((el >>> 0) &&& 1) j,
     acc.w1 ||| shl32 ((el >>> 1) &&& 1) j,
     acc.w2 ||| shl32 ((el >>> 2) &&& 1) j,
     acc.w3 ||| shl32 ((el >>> 3) &&& 1) j⟩

/-- `sbox_loop` with the checked table access. -/
def sbox_loop_checked (t : List (List Nat)) (r : Nat) (src acc : Words4) : Option Words4 :=
  (List.range 32).foldlM (sbox_step_checked t r src) acc

/-- Checked read of round key `i` through `(ak_uint32 *)(keys + i)`: `none` unless `i` is in
`0..32` and the four words are inside the block. -/
def key_part_checked (keys : List Nat) (i : Nat) : Option Words4 :=
  if i ≤ 32 then do
    let k0 ← keys[4 * i]?
    let k1 ← keys[4 * i + 1]?
    let k2 ← keys[4 * i + 2]?
    let k3 ← keys[4 * i + 3]?
    pure ⟨k0, k1, k2, k3⟩
  else none

/-- `encrypt_round` with checked accesses. -/
def encrypt_round_checked (keys : List Nat) (st : EncState) (i : Nat) : Option EncState := do
  let kp ← key_part_checked keys i
  let original_data_part ←
    sbox_loop_checked serpent_s_box (i % 8) (xor4 st.original_data_part kp) ⟨0, 0, 0, 0⟩
  if i < 31 then
    pure ⟨encrypt_linear original_data_part, st.out⟩
  else do
    let k32 ← key_part_checked keys 32
    pure ⟨original_data_part, some (xor4 original_data_part k32)⟩

/-- `encrypt_rounds` with checked accesses. -/
def encrypt_rounds_checked (keys : List Nat) (inp : Words4) : Option EncState :=
  (List.range 32).foldlM (encrypt_round_checked keys) ⟨inp, none⟩

/-- `decrypt_round` with checked accesses. -/
def decrypt_round_checked (keys : List Nat) (st : DecState) (i : Nat) : Option DecState := do
  let kp := if i < 31 then i else 32
  let original_data_part ←
    if i < 31 then pure (decrypt_linear st.original_data_part)
    else (key_part_checked keys 32).map fun k32 => xor4 st.original_data_part k32
  let sh_data_part ←
    sbox_loop_checked serpent_inv_s_box (i % 8) original_data_part st.sh_data_part
  let kp := if i = 31 then i else kp
  let k ← key_part_checked keys kp
  pure ⟨xor4 sh_data_part k, ⟨0, 0, 0, 0⟩, kp⟩

/-- `decrypt_rounds` with checked accesses. -/
def decrypt_rounds_checked (keys : List Nat) (inp : Words4) : Option DecState :=
  (List.range 32).reverse.foldlM (decrypt_round_checked keys) ⟨inp, ⟨0, 0, 0, 0⟩, 0⟩

/-- Checked write `original_divided_key[i] = v`.  The checked array is the list of the words
written so far, in index order: the write is accepted when `i` is in `0..139` and is the next
index, so that a later read of an index below the length reads a word already written. -/
def prekey_write (odk : List Nat) (i v : Nat) : Option (List Nat) :=
  if i < 140 ∧ i = odk.length then some (odk ++ [v]) else none

/-- The first loop of `ak_serpent_schedule_keys` with checked accesses to the key bytes and to
`original_divided_key`. -/
def load_key_checked (key : List Nat) : Option (List Nat) :=
  (List.range 8).foldlM (fun odk i => do
    let b0 ← key[i * 4 + 0]?
    let b1 ← key[i * 4 + 1]?
    let b2 ← key[i * 4 + 2]?
    let b3 ← key[i * 4 + 3]?
    prekey_write odk i (b0 % 256 + 2 ^ 8 * (b1 % 256) + 2 ^ 16 * (b2 % 256)
      + 2 ^ 24 * (b3 % 256))) []

/-- The second loop of `ak_serpent_schedule_keys` with checked accesses. -/
def expand_key_checked (odk : List Nat) : Option (List Nat) :=
  (List.range' 8 132).foldlM (fun odk i => do
    let p8 ← odk[i - 8]?
    let p5 ← odk[i - 5]?
    let p3 ← odk[i - 3]?
    let p1 ← odk[i - 1]?
    prekey_write odk i
      (ak_uint32_cyclic_bit_shift (p8 ^^^ p5 ^^^ p3 ^^^ p1 ^^^ phi ^^^ (i - 8)) 11)) odk

/-- Checked read of the four words `original_divided_key[8 + k + 4 * i]`. -/
def prekey_group_checked (odk : List Nat) (i : Nat) : Option Words4 := do
  let a0 ← odk[8 + 0 + 4 * i]?
  let a1 ← odk[8 + 1 + 4 * i]?
  let a2 ← odk[8 + 2 + 4 * i]?
  let a3 ← odk[8 + 3 + 4 * i]?
  pure ⟨a0, a1, a2, a3⟩

/-- `schedule_step` with checked accesses. -/
def schedule_step_checked (odk : List Nat) (i : Nat) (acc : Words4) (j : Nat) :
    Option Words4 := do
  let g ← prekey_group_checked odk i
  let el ← tab_checked serpent_s_box ((32 + 3 - i) % 8) (gather g j)
  let tmp := el % 256
  pure ⟨acc.w0 ||| shl32 ((tmp >>> 0) &&& 1) j,
        acc.w1 ||| shl32 ((tmp >>> 1) &&& 1) j,
        acc.w2 ||| shl32 ((tmp >>> 2) &&& 1) j,
        acc.w3 ||| shl32 ((tmp >>> 3) &&& 1) j⟩

/-- The third loop of `ak_serpent_schedule_keys` with checked accesses: the rows
`sub_keys[0..32]`, row `i` accepted when `i` is in `0..32`. -/
def sub_keys_checked (odk : List Nat) : Option (List Words4) :=
  (List.range 33).foldlM (fun rows i =>
    if i ≤ 32 then
      ((List.range 32).foldlM (schedule_step_checked odk i) ⟨0, 0, 0, 0⟩).map
        fun row => rows ++ [row]
    else none) []

/-- The round keys of `ak_serpent_schedule_keys` computed with checked accesses. -/
def expanded_keys_checked (key : List Nat) : Option (List Nat) := do
  let odk ← load_key_checked key
  let odk ← expand_key_checked odk
  let rows ← sub_keys_checked odk
  pure (flatten rows)

/-- The environment `failing_wipe_env` with an allocator that fails. -/
def failing_alloc_env : Env := { failing_wipe_env with ak_aligned_malloc := fun _ => false }

/-! ## Auxiliary definitions for the proofs -/

/-- Word `k` of a four-word array. -/
def Words4.get (x : Words4) (k : Nat) : Nat :=
  match k with
  | 0 => x.w0
  | 1 => x.w1
  | 2 => x.w2
  | _ => x.w3

/-- Every word of the expanded keys is a 32-bit value. -/
def keys_wf (keys : List Nat) : Prop := ∀ w ∈ keys, w < 2 ^ 32

instance (keys : List Nat) : Decidable (keys_wf keys) := by
  unfold keys_wf
  infer_instance

/-! ## Rotation and shift -/

theorem shl32_eq_mul (x s : Nat) : shl32 x s = (x * 2 ^ s) % 2 ^ 32 := by
  unfold shl32
  rw [Nat.shiftLeft_eq]

theorem shl32_lt (x s : Nat) : shl32 x s < 2 ^ 32 := by
  unfold shl32
  exact Nat.mod_lt _ (by norm_num)

theorem cyclic_lt (x s : Nat) : ak_uint32_cyclic_bit_shift x s < 2 ^ 32 := by
  unfold ak_uint32_cyclic_bit_shift
  exact Nat.and_lt_two_pow _ (by norm_num)

/-- Arithmetic form of the rotation: the low `32 - s` bits move up by `s`, the high `s` bits
move down. -/
theorem cyclic_eq_add (x s : Nat) (hx : x < 2 ^ 32) (hs : s ≤ 32) :
    ak_uint32_cyclic_bit_shift x s = 2 ^ s * (x % 2 ^ (32 - s)) + x / 2 ^ (32 - s) := by
  have hpow : (2 : Nat) ^ 32 = 2 ^ (32 - s) * 2 ^ s := by
    rw [← Nat.pow_add]; congr 1; omega
  have hlow : x / 2 ^ (32 - s) < 2 ^ s := by
    rw [Nat.div_lt_iff_lt_mul (Nat.pos_pow_of_pos _ (by norm_num))]
    rw [Nat.mul_comm, ← hpow]; exact hx
  have hshl : shl32 x s = 2 ^ s * (x % 2 ^ (32 - s)) := by
    rw [shl32_eq_mul, hpow, Nat.mul_mod_mul_right, Nat.mul_comm]
  have hsum : 2 ^ s * (x % 2 ^ (32 - s)) + x / 2 ^ (32 - s) < 2 ^ 32 := by
    have h1 : x % 2 ^ (32 - s) < 2 ^ (32 - s) := Nat.mod_lt _ (Nat.pos_pow_of_pos _ (by norm_num))
    calc 2 ^ s * (x % 2 ^ (32 - s)) + x / 2 ^ (32 - s)
        < 2 ^ s * (x % 2 ^ (32 - s)) + 2 ^ s := by omega
      _ = 2 ^ s * (x % 2 ^ (32 - s) + 1) := by ring
      _ ≤ 2 ^ s * 2 ^ (32 - s) := Nat.mul_le_mul_left _ h1
      _ = 2 ^ 32 := by rw [hpow, Nat.mul_comm]
  unfold ak_uint32_cyclic_bit_shift
  rw [hshl, Nat.shiftRight_eq_div_pow, ← Nat.mul_add_lt_is_or hlow]
  have : (0xffffffff : Nat) = 2 ^ 32 - 1 := by norm_num
  rw [this, Nat.and_pow_two_sub_one_eq_mod, Nat.mod_eq_of_lt hsum]

theorem cyclic_testBit (x s j : Nat) (hx : x < 2 ^ 32) (hs0 : 0 < s) (hs : s < 32) :
    (ak_uint32_cyclic_bit_shift x s).testBit j
      = (decide (j < 32) && x.testBit ((j + (32 - s)) % 32)) := by
  have hlow : x / 2 ^ (32 - s) < 2 ^ s := by
    have hpow : (2 : Nat) ^ 32 = 2 ^ (32 - s) * 2 ^ s := by
      rw [← Nat.pow_add]; congr 1; omega
    rw [Nat.div_lt_iff_lt_mul (Nat.pos_pow_of_pos _ (by norm_num))]
    rw [Nat.mul_comm, ← hpow]; exact hx
  rw [cyclic_eq_add x s hx (by omega), Nat.testBit_mul_pow_two_add _ hlow]
  by_cases hj : j < s
  · have e1 : (j + (32 - s)) % 32 = 32 - s + j := by omega
    have e2 : j < 32 := by omega
    simp [hj, e1, e2, ← Nat.shiftRight_eq_div_pow]
  · have hge : s ≤ j := by omega
    simp only [hj, if_false, Nat.testBit_mod_two_pow]
    by_cases h32 : j < 32
    · have e1 : (j + (32 - s)) % 32 = j - s := by omega
      have e2 : j - s < 32 - s := by omega
      simp [h32, e1, e2]
    · have e2 : ¬ (j - s < 32 - s) := by omega
      simp [h32, e2]

theorem cyclic_cyclic (x s : Nat) (hx : x < 2 ^ 32) (hs0 : 0 < s) (hs : s < 32) :
    ak_uint32_cyclic_bit_shift (ak_uint32_cyclic_bit_shift x s) (32 - s) = x := by
  apply Nat.eq_of_testBit_eq
  intro j
  rw [cyclic_testBit _ _ _ (cyclic_lt x s) (by omega) (by omega),
    cyclic_testBit _ _ _ hx hs0 hs]
  by_cases h32 : j < 32
  · have e0 : (j + (32 - (32 - s))) % 32 < 32 := Nat.mod_lt _ (by norm_num)
    have e1 : ((j + (32 - (32 - s))) % 32 + (32 - s)) % 32 = j := by omega
    simp [h32, e0, e1]
  · have : x.testBit j = false :=
      Nat.testBit_lt_two_pow (Nat.lt_of_lt_of_le hx (Nat.pow_le_pow_right (by norm_num) (by omega)))
    simp [h32, this]

/-! ## The linear transforms undo each other -/

theorem xor_cancel_two (a b c : Nat) : a ^^^ b ^^^ c ^^^ b ^^^ c = a := by
  apply Nat.eq_of_testBit_eq
  intro i
  simp only [Nat.testBit_xor]
  cases a.testBit i <;> cases b.testBit i <;> cases c.testBit i <;> rfl

theorem xor_lt3 {a b c : Nat} (ha : a < 2 ^ 32) (hb : b < 2 ^ 32) (hc : c < 2 ^ 32) :
    a ^^^ b ^^^ c < 2 ^ 32 :=
  Nat.xor_lt_two_pow (Nat.xor_lt_two_pow ha hb) hc

theorem encrypt_linear_wf (d : Words4) : (encrypt_linear d).wf :=
  ⟨cyclic_lt _ _, cyclic_lt _ _, cyclic_lt _ _, cyclic_lt _ _⟩

theorem decrypt_linear_wf (d : Words4) (h : d.wf) : (decrypt_linear d).wf := by
  obtain ⟨h0, h1, h2, h3⟩ := h
  have e2 : ak_uint32_cyclic_bit_shift d.w2 10 ^^^ d.w3 ^^^ shl32 d.w1 7 < 2 ^ 32 :=
    xor_lt3 (cyclic_lt _ _) h3 (shl32_lt _ _)
  have e0 : ak_uint32_cyclic_bit_shift d.w0 27 ^^^ d.w1 ^^^ d.w3 < 2 ^ 32 :=
    xor_lt3 (cyclic_lt _ _) h1 h3
  exact ⟨cyclic_lt _ _, xor_lt3 (cyclic_lt _ _) e0 e2, cyclic_lt _ _,
    xor_lt3 (cyclic_lt _ _) e2 (shl32_lt _ _)⟩

theorem decrypt_encrypt_linear (d : Words4) (h : d.wf) :
    decrypt_linear (encrypt_linear d) = d := by
  obtain ⟨h0, h1, h2, h3⟩ := h
  obtain ⟨w0, w1, w2, w3⟩ := d
  simp only at h0 h1 h2 h3
  have a0 := cyclic_lt w0 13
  have a2 := cyclic_lt w2 3
  have a1 : w1 ^^^ ak_uint32_cyclic_bit_shift w0 13 ^^^ ak_uint32_cyclic_bit_shift w2 3
      < 2 ^ 32 := xor_lt3 h1 a0 a2
  have a3 : w3 ^^^ ak_uint32_cyclic_bit_shift w2 3 ^^^ shl32 (ak_uint32_cyclic_bit_shift w0 13) 3
      < 2 ^ 32 := xor_lt3 h3 a2 (shl32_lt _ _)
  have b0 := xor_lt3 a0
    (cyclic_lt (w1 ^^^ ak_uint32_cyclic_bit_shift w0 13 ^^^ ak_uint32_cyclic_bit_shift w2 3) 1)
    (cyclic_lt
      (w3 ^^^ ak_uint32_cyclic_bit_shift w2 3 ^^^ shl32 (ak_uint32_cyclic_bit_shift w0 13) 3) 7)
  have b2 := xor_lt3 a2
    (cyclic_lt
      (w3 ^^^ ak_uint32_cyclic_bit_shift w2 3 ^^^ shl32 (ak_uint32_cyclic_bit_shift w0 13) 3) 7)
    (shl32_lt (ak_uint32_cyclic_bit_shift
      (w1 ^^^ ak_uint32_cyclic_bit_shift w0 13 ^^^ ak_uint32_cyclic_bit_shift w2 3) 1) 7)
  simp only [encrypt_linear, decrypt_linear]
  rw [cyclic_cyclic _ 22 b2 (by norm_num) (by norm_num),
    cyclic_cyclic _ 5 b0 (by norm_num) (by norm_num), xor_cancel_two, xor_cancel_two,
    cyclic_cyclic _ 7 a3 (by norm_num) (by norm_num),
    cyclic_cyclic _ 1 a1 (by norm_num) (by norm_num), xor_cancel_two, xor_cancel_two,
    cyclic_cyclic _ 3 h2 (by norm_num) (by norm_num),
    cyclic_cyclic _ 13 h0 (by norm_num) (by norm_num)]

theorem encrypt_decrypt_linear (d : Words4) (h : d.wf) :
    encrypt_linear (decrypt_linear d) = d := by
  obtain ⟨h0, h1, h2, h3⟩ := h
  obtain ⟨w0, w1, w2, w3⟩ := d
  simp only at h0 h1 h2 h3
  have e2 : ak_uint32_cyclic_bit_shift w2 10 ^^^ w3 ^^^ shl32 w1 7 < 2 ^ 32 :=
    xor_lt3 (cyclic_lt _ _) h3 (shl32_lt _ _)
  have e0 : ak_uint32_cyclic_bit_shift w0 27 ^^^ w1 ^^^ w3 < 2 ^ 32 :=
    xor_lt3 (cyclic_lt _ _) h1 h3
  simp only [encrypt_linear, decrypt_linear]
  rw [cyclic_cyclic _ 19 e0 (by norm_num) (by norm_num),
    cyclic_cyclic _ 29 e2 (by norm_num) (by norm_num), xor_cancel_two, xor_cancel_two,
    cyclic_cyclic _ 31 h1 (by norm_num) (by norm_num),
    cyclic_cyclic _ 25 h3 (by norm_num) (by norm_num), xor_cancel_two, xor_cancel_two,
    cyclic_cyclic _ 27 h0 (by norm_num) (by norm_num),
    cyclic_cyclic _ 10 h2 (by norm_num) (by norm_num)]

/-! ## The bit-slice S-box passes -/

theorem bit_eq_toNat (x j : Nat) : bit x j = (x.testBit j).toNat := by
  unfold bit
  rw [Nat.and_one_is_mod, Nat.toNat_testBit, Nat.shiftRight_eq_div_pow]

theorem bit_of_lt_16 : ∀ e, e < 16 →
    ((bit e 0 <<< 0) ||| (bit e 1 <<< 1) ||| (bit e 2 <<< 2) ||| (bit e 3 <<< 3)) = e := by
  decide
theorem gather_lt (s : Words4) (j : Nat) : gather s j < 16 := by
  unfold gather
  simp only [bit_eq_toNat]
  cases s.w0.testBit j <;> cases s.w1.testBit j <;> cases s.w2.testBit j <;>
    cases s.w3.testBit j <;> decide

theorem testBit_shl32_bit (e k j m : Nat) :
    (shl32 ((e >>> k) &&& 1) j).testBit m
      = (decide (m = j) && decide (m < 32) && e.testBit k) := by
  have hb : (e >>> k) &&& 1 = (e.testBit k).toNat := bit_eq_toNat e k
  unfold shl32
  rw [hb, Nat.testBit_mod_two_pow, Nat.testBit_shiftLeft]
  cases hk : e.testBit k
  · simp
  · by_cases hmj : m = j
    · subst hmj
      simp
    · by_cases hge : j ≤ m
      · have : m - j ≠ 0 := by omega
        have h2 : Nat.testBit 1 (m - j) = false := by
          cases h : Nat.testBit 1 (m - j)
          · rfl
          · exact absurd (Nat.testBit_one_eq_true_iff_self_eq_zero.mp h) this
        simp [hmj, h2]
      · simp [hmj, hge]

theorem Words4.ext_get {x y : Words4} (h : ∀ k, k < 4 → x.get k = y.get k) : x = y := by
  obtain ⟨a0, a1, a2, a3⟩ := x
  obtain ⟨b0, b1, b2, b3⟩ := y
  have h0 := h 0 (by norm_num)
  have h1 := h 1 (by norm_num)
  have h2 := h 2 (by norm_num)
  have h3 := h 3 (by norm_num)
  simp only [Words4.get] at h0 h1 h2 h3
  subst h0 h1 h2 h3
  rfl

theorem Words4.wf_of_get {x : Words4} (h : ∀ k, k < 4 → x.get k < 2 ^ 32) : x.wf :=
  ⟨h 0 (by norm_num), h 1 (by norm_num), h 2 (by norm_num), h 3 (by norm_num)⟩

theorem Words4.get_lt {x : Words4} (h : x.wf) (k : Nat) : x.get k < 2 ^ 32 := by
  obtain ⟨h0, h1, h2, h3⟩ := h
  unfold Words4.get
  split <;> assumption

theorem gather_testBit (s : Words4) (j k : Nat) (hk : k < 4) :
    (gather s j).testBit k = (s.get k).testBit j := by
  unfold gather
  simp only [bit_eq_toNat]
  interval_cases k <;> simp only [Words4.get] <;>
  cases s.w0.testBit j <;> cases s.w1.testBit j <;> cases s.w2.testBit j <;>
    cases s.w3.testBit j <;> decide

theorem gather_eq_of_testBit (s : Words4) (j e : Nat) (he : e < 16)
    (h : ∀ k, k < 4 → (s.get k).testBit j = e.testBit k) : gather s j = e := by
  have h0 := h 0 (by norm_num)
  have h1 := h 1 (by norm_num)
  have h2 := h 2 (by norm_num)
  have h3 := h 3 (by norm_num)
  simp only [Words4.get] at h0 h1 h2 h3
  unfold gather
  simp only [bit_eq_toNat, h0, h1, h2, h3]
  simp only [← bit_eq_toNat]
  exact bit_of_lt_16 e he

theorem sbox_step_get (t : List (List Nat)) (r : Nat) (src acc : Words4) (j k : Nat)
    (hk : k < 4) :
    (sbox_step t r src acc j).get k
      = acc.get k ||| shl32 ((tab t r (gather src j) >>> k) &&& 1) j := by
  interval_cases k <;> rfl

theorem sbox_fold_testBit (t : List (List Nat)) (r : Nat) (src acc : Words4) (k : Nat)
    (hk : k < 4) (m n : Nat) :
    (((List.range n).foldl (sbox_step t r src) acc).get k).testBit m
      = ((acc.get k).testBit m
          || (decide (m < n) && decide (m < 32) && (tab t r (gather src m)).testBit k)) := by
  induction n with
  | zero => simp
  | succ n ih =>
    rw [List.range_succ, List.foldl_append, List.foldl_cons, List.foldl_nil,
      sbox_step_get _ _ _ _ _ _ hk, Nat.testBit_or, ih, testBit_shl32_bit]
    by_cases hmn : m = n
    · subst hmn
      simp
    · by_cases hlt : m < n
      · have : m < n + 1 := by omega
        simp [hmn, hlt, this]
      · have : ¬ m < n + 1 := by omega
        simp [hmn, hlt, this]

theorem sbox_loop_testBit (t : List (List Nat)) (r : Nat) (src : Words4) (k : Nat)
    (hk : k < 4) (m : Nat) :
    ((sbox_loop t r src ⟨0, 0, 0, 0⟩).get k).testBit m
      = (decide (m < 32) && (tab t r (gather src m)).testBit k) := by
  unfold sbox_loop
  rw [sbox_fold_testBit _ _ _ _ _ hk]
  have : (Words4.get ⟨0, 0, 0, 0⟩ k) = 0 := by interval_cases k <;> rfl
  simp [this]

theorem testBit_high {x m : Nat} (hx : x < 2 ^ 32) (hm : ¬ m < 32) : x.testBit m = false :=
  Nat.testBit_lt_two_pow
    (Nat.lt_of_lt_of_le hx (Nat.pow_le_pow_right (by norm_num) (by omega)))

theorem sbox_loop_wf (t : List (List Nat)) (r : Nat) (src : Words4) :
    (sbox_loop t r src ⟨0, 0, 0, 0⟩).wf := by
  apply Words4.wf_of_get
  intro k hk
  apply Nat.lt_pow_two_of_testBit
  intro i hi
  rw [sbox_loop_testBit _ _ _ _ hk]
  have : ¬ i < 32 := by omega
  simp [this]

set_option maxRecDepth 20000 in
theorem sbox_tables : ∀ r, r < 8 → ∀ c, c < 16 →
    tab serpent_s_box r c < 16 ∧ tab serpent_inv_s_box r c < 16 ∧
    tab serpent_inv_s_box r (tab serpent_s_box r c) = c ∧
    tab serpent_s_box r (tab serpent_inv_s_box r c) = c := by
  decide

/-- Two bit-slice passes through tables that undo each other on the row return the words. -/
theorem sbox_loop_cancel (t u : List (List Nat)) (r : Nat) (x : Words4) (hx : x.wf)
    (ht : ∀ c, c < 16 → tab t r c < 16 ∧ tab u r (tab t r c) = c) :
    sbox_loop u r (sbox_loop t r x ⟨0, 0, 0, 0⟩) ⟨0, 0, 0, 0⟩ = x := by
  apply Words4.ext_get
  intro k hk
  apply Nat.eq_of_testBit_eq
  intro m
  rw [sbox_loop_testBit _ _ _ _ hk]
  by_cases hm : m < 32
  · have hg : gather (sbox_loop t r x ⟨0, 0, 0, 0⟩) m = tab t r (gather x m) := by
      apply gather_eq_of_testBit _ _ _ (ht _ (gather_lt x m)).1
      intro k' hk'
      rw [sbox_loop_testBit _ _ _ _ hk']
      simp [hm]
    rw [hg, (ht _ (gather_lt x m)).2, gather_testBit _ _ _ hk]
    simp [hm]
  · rw [testBit_high (Words4.get_lt hx k) hm]
    simp [hm]

/-! ## Rounds: decryption undoes encryption -/

theorem getD_lt_of_keys_wf {keys : List Nat} (h : keys_wf keys) (n : Nat) :
    keys.getD n 0 < 2 ^ 32 := by
  by_cases hn : n < keys.length
  · rw [List.getD_eq_getElem _ _ hn]
    exact h _ (List.getElem_mem hn)
  · rw [List.getD_eq_default _ _ (by omega)]
    norm_num

theorem key_part_wf {keys : List Nat} (h : keys_wf keys) (i : Nat) : (key_part keys i).wf :=
  ⟨getD_lt_of_keys_wf h _, getD_lt_of_keys_wf h _, getD_lt_of_keys_wf h _,
    getD_lt_of_keys_wf h _⟩

theorem xor4_wf {a b : Words4} (ha : a.wf) (hb : b.wf) : (xor4 a b).wf :=
  ⟨Nat.xor_lt_two_pow ha.1 hb.1, Nat.xor_lt_two_pow ha.2.1 hb.2.1,
    Nat.xor_lt_two_pow ha.2.2.1 hb.2.2.1, Nat.xor_lt_two_pow ha.2.2.2 hb.2.2.2⟩

theorem xor_cancel_one (a b : Nat) : a ^^^ b ^^^ b = a := by
  rw [Nat.xor_assoc, Nat.xor_self, Nat.xor_zero]

theorem xor4_cancel (a k : Words4) : xor4 (xor4 a k) k = a := by
  obtain ⟨a0, a1, a2, a3⟩ := a
  simp only [xor4, xor_cancel_one]

theorem sbox_rows (i : Nat) :
    (∀ c, c < 16 → tab serpent_s_box (i % 8) c < 16 ∧
      tab serpent_inv_s_box (i % 8) (tab serpent_s_box (i % 8) c) = c) ∧
    (∀ c, c < 16 → tab serpent_inv_s_box (i % 8) c < 16 ∧
      tab serpent_s_box (i % 8) (tab serpent_inv_s_box (i % 8) c) = c) := by
  have hr : i % 8 < 8 := Nat.mod_lt _ (by norm_num)
  exact ⟨fun c hc => ⟨(sbox_tables _ hr c hc).1, (sbox_tables _ hr c hc).2.2.1⟩,
    fun c hc => ⟨(sbox_tables _ hr c hc).2.1, (sbox_tables _ hr c hc).2.2.2⟩⟩

/-- A decryption round `i < 31` undoes the encryption round `i`. -/
theorem decrypt_encrypt_round (keys : List Nat) (hk : keys_wf keys) (st : EncState)
    (hst : st.original_data_part.wf) (i kp : Nat) (hi : i < 31) :
    decrypt_round keys ⟨(encrypt_round keys st i).original_data_part, ⟨0, 0, 0, 0⟩, kp⟩ i
      = ⟨st.original_data_part, ⟨0, 0, 0, 0⟩, i⟩ := by
  have hne : i ≠ 31 := by omega
  simp only [encrypt_round, decrypt_round, hi, if_true, hne, if_false]
  rw [decrypt_encrypt_linear _ (sbox_loop_wf _ _ _),
    sbox_loop_cancel _ _ _ _ (xor4_wf hst (key_part_wf hk i)) (sbox_rows i).1, xor4_cancel]

theorem encrypt_round_wf (keys : List Nat) (st : EncState) (i : Nat) :
    (encrypt_round keys st i).original_data_part.wf := by
  unfold encrypt_round
  split
  · exact encrypt_linear_wf _
  · exact sbox_loop_wf _ _ _

theorem encrypt_round_out (keys : List Nat) (st : EncState) (i : Nat) (hi : i < 31) :
    (encrypt_round keys st i).out = st.out := by
  simp [encrypt_round, hi]

/-- Running the decryption rounds `n - 1, ..., 0` after the encryption rounds `0, ..., n - 1`
returns the block the encryption started from. -/
theorem decrypt_encrypt_upto (keys : List Nat) (hk : keys_wf keys) (B : Words4) (hB : B.wf)
    (o : Option Words4) (n : Nat) (hn : n ≤ 31) (kp : Nat) :
    ((List.range n).foldl (encrypt_round keys) ⟨B, o⟩).out = o ∧
    ((List.range n).foldl (encrypt_round keys) ⟨B, o⟩).original_data_part.wf ∧
    (List.range n).reverse.foldl (decrypt_round keys)
        ⟨((List.range n).foldl (encrypt_round keys) ⟨B, o⟩).original_data_part, ⟨0, 0, 0, 0⟩, kp⟩
      = ⟨B, ⟨0, 0, 0, 0⟩, if n = 0 then kp else 0⟩ := by
  induction n generalizing kp with
  | zero => exact ⟨rfl, hB, rfl⟩
  | succ n ih =>
    obtain ⟨ho, hwf, hdec⟩ := ih (by omega) n
    rw [List.range_succ, List.foldl_append, List.foldl_cons, List.foldl_nil,
      List.reverse_append, List.reverse_singleton, List.singleton_append, List.foldl_cons]
    refine ⟨?_, encrypt_round_wf _ _ _, ?_⟩
    · rw [encrypt_round_out _ _ _ (by omega), ho]
    · rw [decrypt_encrypt_round keys hk _ hwf n kp (by omega), hdec]
      by_cases h0 : n = 0 <;> simp [h0]

theorem encrypt_rounds_out (keys : List Nat) (B : Words4) :
    (encrypt_rounds keys B).out
      = some (xor4 (sbox_loop serpent_s_box (31 % 8)
          (xor4 ((List.range 31).foldl (encrypt_round keys) ⟨B, none⟩).original_data_part
            (key_part keys 31)) ⟨0, 0, 0, 0⟩) (key_part keys 32)) := by
  unfold encrypt_rounds
  have h32 : List.range 32 = List.range 31 ++ [31] := List.range_succ 31
  rw [h32, List.foldl_append, List.foldl_cons, List.foldl_nil]
  simp [encrypt_round]

/-- Rounds level round trip: decrypting the encrypted block returns the block, and the
pointer `key_part` ends at round key 0. -/
theorem decrypt_encrypt_rounds (keys : List Nat) (hk : keys_wf keys) (B : Words4) (hB : B.wf) :
    ∃ C, (encrypt_rounds keys B).out = some C ∧ C.wf ∧
      decrypt_rounds keys C = ⟨B, ⟨0, 0, 0, 0⟩, 0⟩ := by
  obtain ⟨_, hwf, hdec⟩ := decrypt_encrypt_upto keys hk B hB none 31 (by norm_num) 31
  refine ⟨_, encrypt_rounds_out keys B, xor4_wf (sbox_loop_wf _ _ _) (key_part_wf hk 32), ?_⟩
  unfold decrypt_rounds
  have h32 : List.range 32 = List.range 31 ++ [31] := List.range_succ 31
  rw [h32, List.reverse_append, List.reverse_singleton, List.singleton_append,
    List.foldl_cons]
  have h31 : decrypt_round keys
      ⟨xor4 (sbox_loop serpent_s_box (31 % 8)
          (xor4 ((List.range 31).foldl (encrypt_round keys) ⟨B, none⟩).original_data_part
            (key_part keys 31)) ⟨0, 0, 0, 0⟩) (key_part keys 32), ⟨0, 0, 0, 0⟩, 0⟩ 31
      = ⟨((List.range 31).foldl (encrypt_round keys) ⟨B, none⟩).original_data_part,
          ⟨0, 0, 0, 0⟩, 31⟩ := by
    simp only [decrypt_round, lt_irrefl, if_false, if_true]
    rw [xor4_cancel, sbox_loop_cancel _ _ _ _ (xor4_wf hwf (key_part_wf hk 31)) (sbox_rows 31).1,
      xor4_cancel]
  rw [h31, hdec]
  simp

/-! ## Rounds: encryption undoes decryption -/

theorem decrypt_round_eq (keys : List Nat) (X : Words4) (i kp : Nat) (hi : i < 31) :
    decrypt_round keys ⟨X, ⟨0, 0, 0, 0⟩, kp⟩ i
      = ⟨xor4 (sbox_loop serpent_inv_s_box (i % 8) (decrypt_linear X) ⟨0, 0, 0, 0⟩)
          (key_part keys i), ⟨0, 0, 0, 0⟩, i⟩ := by
  have hne : i ≠ 31 := by omega
  simp only [decrypt_round, hi, if_true, hne, if_false]

theorem decrypt_round_last (keys : List Nat) (X : Words4) (kp : Nat) :
    decrypt_round keys ⟨X, ⟨0, 0, 0, 0⟩, kp⟩ 31
      = ⟨xor4 (sbox_loop serpent_inv_s_box (31 % 8) (xor4 X (key_part keys 32)) ⟨0, 0, 0, 0⟩)
          (key_part keys 31), ⟨0, 0, 0, 0⟩, 31⟩ := by
  simp only [decrypt_round, lt_irrefl, if_false, if_true]

/-- An encryption round `i < 31` undoes the decryption round `i`. -/
theorem encrypt_decrypt_round (keys : List Nat) (X : Words4) (hX : X.wf)
    (o : Option Words4) (i kp : Nat) (hi : i < 31) :
    encrypt_round keys
        ⟨(decrypt_round keys ⟨X, ⟨0, 0, 0, 0⟩, kp⟩ i).original_data_part, o⟩ i = ⟨X, o⟩ := by
  rw [decrypt_round_eq _ _ _ _ hi]
  simp only [encrypt_round, hi, if_true]
  rw [xor4_cancel, sbox_loop_cancel _ _ _ _ (decrypt_linear_wf X hX) (sbox_rows i).2,
    encrypt_decrypt_linear X hX]

/-- Running the encryption rounds `0, ..., n - 1` after the decryption rounds
`n - 1, ..., 0` returns the block the decryption rounds started from. -/
theorem encrypt_decrypt_upto (keys : List Nat) (hk : keys_wf keys) (o : Option Words4)
    (n : Nat) (hn : n ≤ 31) (X : Words4) (hX : X.wf) (kp : Nat) :
    ((List.range n).reverse.foldl (decrypt_round keys)
        ⟨X, ⟨0, 0, 0, 0⟩, kp⟩).original_data_part.wf ∧
    (List.range n).foldl (encrypt_round keys)
        ⟨((List.range n).reverse.foldl (decrypt_round keys)
          ⟨X, ⟨0, 0, 0, 0⟩, kp⟩).original_data_part, o⟩ = ⟨X, o⟩ := by
  induction n generalizing X kp with
  | zero => exact ⟨hX, rfl⟩
  | succ n ih =>
    have hX1 : (xor4 (sbox_loop serpent_inv_s_box (n % 8) (decrypt_linear X) ⟨0, 0, 0, 0⟩)
        (key_part keys n)).wf := xor4_wf (sbox_loop_wf _ _ _) (key_part_wf hk n)
    obtain ⟨hwf, henc⟩ := ih (by omega) _ hX1 n
    rw [List.range_succ, List.foldl_append, List.foldl_cons, List.foldl_nil,
      List.reverse_append, List.reverse_singleton, List.singleton_append, List.foldl_cons,
      decrypt_round_eq _ _ _ _ (by omega : n < 31)]
    refine ⟨hwf, ?_⟩
    rw [henc]
    have h := encrypt_decrypt_round keys X hX o n kp (by omega)
    rw [decrypt_round_eq _ _ _ _ (by omega : n < 31)] at h
    exact h

/-- Rounds level: encrypting the decrypted block returns the block. -/
theorem encrypt_decrypt_rounds (keys : List Nat) (hk : keys_wf keys) (C : Words4) (hC : C.wf) :
    (decrypt_rounds keys C).original_data_part.wf ∧
    (encrypt_rounds keys (decrypt_rounds keys C).original_data_part).out = some C := by
  have hX : (xor4 (sbox_loop serpent_inv_s_box (31 % 8) (xor4 C (key_part keys 32))
      ⟨0, 0, 0, 0⟩) (key_part keys 31)).wf := xor4_wf (sbox_loop_wf _ _ _) (key_part_wf hk 31)
  obtain ⟨hwf, henc⟩ := encrypt_decrypt_upto keys hk none 31 (by norm_num) _ hX 31
  have h32 : List.range 32 = List.range 31 ++ [31] := List.range_succ 31
  have hd : decrypt_rounds keys C
      = (List.range 31).reverse.foldl (decrypt_round keys)
          ⟨xor4 (sbox_loop serpent_inv_s_box (31 % 8) (xor4 C (key_part keys 32))
            ⟨0, 0, 0, 0⟩) (key_part keys 31), ⟨0, 0, 0, 0⟩, 31⟩ := by
    unfold decrypt_rounds
    rw [h32, List.reverse_append, List.reverse_singleton, List.singleton_append,
      List.foldl_cons, decrypt_round_last]
  rw [hd]
  refine ⟨hwf, ?_⟩
  unfold encrypt_rounds
  rw [h32, List.foldl_append, List.foldl_cons, List.foldl_nil, henc]
  simp only [encrypt_round, lt_irrefl, if_false]
  rw [xor4_cancel, sbox_loop_cancel _ _ _ _ (xor4_wf hC (key_part_wf hk 32)) (sbox_rows 31).2,
    xor4_cancel]

/-! ## The key schedule stores well-formed round keys -/

theorem schedule_step_eq (odk : List Nat) (i : Nat) (acc : Words4) (j : Nat) :
    schedule_step odk i acc j
      = sbox_step serpent_s_box ((32 + 3 - i) % 8) (prekey_group odk i) acc j := by
  have h : tab serpent_s_box ((32 + 3 - i) % 8) (gather (prekey_group odk i) j) < 16 :=
    (sbox_tables _ (Nat.mod_lt _ (by norm_num)) _ (gather_lt _ _)).1
  unfold schedule_step sbox_step
  rw [Nat.mod_eq_of_lt (by omega)]

theorem sub_keys_row_eq (odk : List Nat) (i : Nat) :
    sub_keys_row odk i
      = sbox_loop serpent_s_box ((32 + 3 - i) % 8) (prekey_group odk i) ⟨0, 0, 0, 0⟩ := by
  unfold sub_keys_row sbox_loop
  congr 1
  funext acc j
  exact schedule_step_eq odk i acc j

theorem keys_wf_flatten (l : List Words4) (h : ∀ x ∈ l, x.wf) : keys_wf (flatten l) := by
  induction l with
  | nil => intro w hw; simp [flatten] at hw
  | cons x l ih =>
    intro w hw
    have hx := h x (List.mem_cons_self _ _)
    simp only [flatten, List.mem_cons] at hw
    rcases hw with rfl | rfl | rfl | rfl | hw
    · exact hx.1
    · exact hx.2.1
    · exact hx.2.2.1
    · exact hx.2.2.2
    · exact ih (fun y hy => h y (List.mem_cons_of_mem _ hy)) w hw

theorem length_flatten (l : List Words4) : (flatten l).length = 4 * l.length := by
  induction l with
  | nil => rfl
  | cons x l ih => simp only [flatten, List.length_cons, ih]; omega

theorem key_part_flatten (l : List Words4) (i : Nat) :
    key_part (flatten l) i = l.getD i ⟨0, 0, 0, 0⟩ := by
  induction l generalizing i with
  | nil => simp [key_part, flatten]
  | cons x l ih =>
    cases i with
    | zero => rfl
    | succ i =>
      have := ih i
      simp only [key_part] at this ⊢
      simp only [flatten, Nat.mul_succ, List.getD_cons_succ]
      exact this

theorem expanded_keys_wf (key : List Nat) : keys_wf (expanded_keys key) := by
  apply keys_wf_flatten
  intro x hx
  simp only [sub_keys, List.mem_map] at hx
  obtain ⟨i, _, rfl⟩ := hx
  rw [sub_keys_row_eq]
  exact sbox_loop_wf _ _ _

theorem length_expanded_keys (key : List Nat) : (expanded_keys key).length = 132 := by
  simp [expanded_keys, length_flatten, sub_keys]

theorem key_part_expanded_keys (key : List Nat) (i : Nat) (hi : i < 33) :
    key_part (expanded_keys key) i
      = sbox_loop serpent_s_box ((32 + 3 - i) % 8)
          (prekey_group (original_divided_key key) i) ⟨0, 0, 0, 0⟩ := by
  rw [expanded_keys, key_part_flatten, sub_keys, ← sub_keys_row_eq,
    List.getD_eq_getElem _ _ (by simp [hi])]
  simp

/-- A call of `ak_serpent_schedule_keys` that passes the checks and gets its memory stores the
round keys of the key bytes and changes nothing else but the generator. -/
theorem schedule_keys_ok (env : Env) (s : skey) (hsize : s.key_size = 32)
    (hic : s.check_icode = true) (hmem : env.ak_aligned_malloc sizeof_expanded_keys = true) :
    ∃ g freed, ak_serpent_schedule_keys env (some s)
      = ⟨.ak_error_ok, some { s with data := some (expanded_keys s.key), generator := g },
          freed, 1⟩ := by
  refine ⟨((ak_serpent_schedule_keys env (some s)).skey.getD s).generator,
    (ak_serpent_schedule_keys env (some s)).freed, ?_⟩
  cases hd : s.data with
  | none =>
    simp [ak_serpent_schedule_keys, hsize, hic, hmem, hd, expanded_keys]
  | some d =>
    simp [ak_serpent_schedule_keys, ak_serpent_delete_keys, hsize, hic, hmem, hd,
      expanded_keys]

/-! ## Claims C1 and C6: the round trips -/

/-- What `ak_serpent_decrypt` returns on a context that holds expanded keys. -/
theorem ak_serpent_decrypt_eq (env : Env) (s : skey) (keys : List Nat)
    (hd : s.data = some keys) (C : Words4) :
    ak_serpent_decrypt env s C
      = some ((decrypt_rounds keys C).original_data_part,
          { s with
            data := some (store_words keys (4 * (decrypt_rounds keys C).key_part)
              (env.sizeof_ptr / 4)
              (env.ak_ptr_wipe
                ((keys.drop (4 * (decrypt_rounds keys C).key_part)).take (env.sizeof_ptr / 4))
                env.sizeof_ptr s.generator).written),
            generator := (env.ak_ptr_wipe
                ((keys.drop (4 * (decrypt_rounds keys C).key_part)).take (env.sizeof_ptr / 4))
                env.sizeof_ptr s.generator).generator }) := by
  simp only [ak_serpent_decrypt, hd]

theorem ak_serpent_encrypt_eq (s : skey) (keys : List Nat) (hd : s.data = some keys)
    (B : Words4) : ak_serpent_encrypt s B = (encrypt_rounds keys B).out := by
  simp only [ak_serpent_encrypt, hd]

/-- C1: for every context with a 32-byte key that `ak_serpent_schedule_keys` schedules
successfully and every 128-bit block `B`, `ak_serpent_decrypt` applied to the output of
`ak_serpent_encrypt (B)`, both under the round keys the schedule stored, returns exactly `B`. -/
theorem roundtrip_scheduled (env env1 : Env) (s : skey) (B : Words4) (hB : B.wf)
    (hsize : s.key_size = 32) (hic : s.check_icode = true)
    (hmem : env.ak_aligned_malloc sizeof_expanded_keys = true) :
    ∃ s1 C s2, (ak_serpent_schedule_keys env (some s)).error = .ak_error_ok ∧
      (ak_serpent_schedule_keys env (some s)).skey = some s1 ∧
      s1.data = some (expanded_keys s.key) ∧
      ak_serpent_encrypt s1 B = some C ∧ ak_serpent_decrypt env1 s1 C = some (B, s2) := by
  obtain ⟨g, freed, hs⟩ := schedule_keys_ok env s hsize hic hmem
  obtain ⟨C, hC, _, hdec⟩ := decrypt_encrypt_rounds _ (expanded_keys_wf s.key) B hB
  have he := ak_serpent_encrypt_eq
    { s with data := some (expanded_keys s.key), generator := g } _ rfl B
  have hd := ak_serpent_decrypt_eq env1
    { s with data := some (expanded_keys s.key), generator := g } _ rfl C
  rw [hdec] at hd
  exact ⟨_, C, _, by rw [hs], by rw [hs], rfl, he.trans hC, hd⟩

/-- C1 at the key and the block of `examples/test-serpent.c`. -/
theorem roundtrip_scheduled_witness :
    test_in.wf ∧ ∃ s1 C s2,
      (ak_serpent_schedule_keys test_env (some test_skey)).error = .ak_error_ok ∧
      (ak_serpent_schedule_keys test_env (some test_skey)).skey = some s1 ∧
      s1.data = some (expanded_keys test_skey.key) ∧
      ak_serpent_encrypt s1 test_in = some C ∧
      ak_serpent_decrypt test_env s1 C = some (test_in, s2) :=
  ⟨by decide, roundtrip_scheduled test_env test_env test_skey test_in (by decide) rfl rfl rfl⟩

/-- C6: under every array of well-formed round keys, `ak_serpent_encrypt` applied to the
output of `ak_serpent_decrypt (C)` returns `C`; with the round trip in the other direction,
encryption under fixed round keys is a bijection on 128-bit blocks. -/
theorem encrypt_decrypt_inverse (env : Env) (s : skey) (keys : List Nat)
    (hd : s.data = some keys) (hk : keys_wf keys) (C : Words4) (hC : C.wf) :
    (∃ P s2, ak_serpent_decrypt env s C = some (P, s2) ∧ P.wf ∧
      ak_serpent_encrypt s P = some C) ∧
    (∀ P, P.wf → ∃ C1, ak_serpent_encrypt s P = some C1 ∧ C1.wf) ∧
    (∀ P P1, P.wf → P1.wf → ak_serpent_encrypt s P = ak_serpent_encrypt s P1 → P = P1) ∧
    (∃ P, P.wf ∧ ak_serpent_encrypt s P = some C) := by
  obtain ⟨hwf, henc⟩ := encrypt_decrypt_rounds keys hk C hC
  refine ⟨⟨_, _, ak_serpent_decrypt_eq env s keys hd C, hwf, ?_⟩, ?_, ?_, ⟨_, hwf, ?_⟩⟩
  · rw [ak_serpent_encrypt_eq s keys hd]
    exact henc
  · intro P hP
    obtain ⟨C1, h1, h2, _⟩ := decrypt_encrypt_rounds keys hk P hP
    exact ⟨C1, by rw [ak_serpent_encrypt_eq s keys hd]; exact h1, h2⟩
  · intro P P1 hP hP1 h
    obtain ⟨C1, h1, _, d1⟩ := decrypt_encrypt_rounds keys hk P hP
    obtain ⟨C2, h2, _, d2⟩ := decrypt_encrypt_rounds keys hk P1 hP1
    rw [ak_serpent_encrypt_eq s keys hd, ak_serpent_encrypt_eq s keys hd, h1, h2,
      Option.some.injEq] at h
    subst h
    rw [d1] at d2
    exact (DecState.mk.inj d2).1
  · rw [ak_serpent_encrypt_eq s keys hd]
    exact henc

/-- C6 at round keys that no key schedule produced and the block of the test. -/
theorem encrypt_decrypt_inverse_witness :
    (∃ P s2, ak_serpent_decrypt test_env { test_skey with data := some demo_keys } test_in
        = some (P, s2) ∧ P.wf ∧
      ak_serpent_encrypt { test_skey with data := some demo_keys } P = some test_in) ∧
    (∀ P, P.wf → ∃ C1,
      ak_serpent_encrypt { test_skey with data := some demo_keys } P = some C1 ∧ C1.wf) ∧
    (∀ P P1, P.wf → P1.wf →
      ak_serpent_encrypt { test_skey with data := some demo_keys } P
        = ak_serpent_encrypt { test_skey with data := some demo_keys } P1 →
      P = P1) ∧
    (∃ P, P.wf ∧ ak_serpent_encrypt { test_skey with data := some demo_keys } P
      = some test_in) :=
  encrypt_decrypt_inverse test_env { test_skey with data := some demo_keys } demo_keys rfl
    (fun w hw => by rw [List.eq_of_mem_replicate hw]; norm_num) test_in (by decide)

/-! ## Claims C4 and C5: the wipe at the end of `ak_serpent_decrypt` -/

/-- The scheduled context of the examples is what `ak_serpent_schedule_keys` makes of the
context of the test. -/
theorem schedule_test_skey :
    ak_serpent_schedule_keys test_env (some test_skey)
      = ⟨.ak_error_ok, some test_scheduled, [], 1⟩ := by
  simp [ak_serpent_schedule_keys, test_skey, test_env, test_scheduled, expanded_keys,
    sizeof_expanded_keys]

/-- After the last round of `ak_serpent_decrypt` the pointer `key_part` is `keys + 0`, for
every input. -/
theorem decrypt_rounds_key_part (keys : List Nat) (C : Words4) :
    (decrypt_rounds keys C).key_part = 0 := by
  have h : (List.range 32).reverse = (List.range' 1 31).reverse ++ [0] := by decide
  unfold decrypt_rounds
  rw [h, List.foldl_append, List.foldl_cons, List.foldl_nil]
  simp [decrypt_round]

/-- The expanded keys after `ak_serpent_decrypt`: the first `sizeof (key_part) / 4` words of
round key 0 hold what the wipe wrote, for every environment, context and input. -/
theorem ak_serpent_decrypt_data (env : Env) (s : skey) (keys : List Nat)
    (hd : s.data = some keys) (C : Words4) :
    (ak_serpent_decrypt env s C).map (fun r => r.2.data)
      = some (some (store_words keys 0 (env.sizeof_ptr / 4)
          (env.ak_ptr_wipe (keys.take (env.sizeof_ptr / 4)) env.sizeof_ptr
            s.generator).written)) := by
  rw [ak_serpent_decrypt_eq env s keys hd C, decrypt_rounds_key_part]
  simp

/-- C4 (the code departs from the claim): on the scheduled context of the test, with 8-byte
pointers and a wipe that leaves zeros, `ak_serpent_decrypt` returns with the first two words of
round key 0 overwritten, because its last statement wipes `sizeof (key_part)` bytes at the
address `key_part` holds, which is `keys + 0`. -/
theorem decrypt_overwrites_round_key :
    (decrypt_rounds (expanded_keys test_key) test_in).key_part = 0 ∧
    test_scheduled.data.map (List.take 4)
      = some [855683351, 944334999, 3342787234, 3141865529] ∧
    (ak_serpent_decrypt test_env test_scheduled test_in).map
        (fun r => r.2.data.map (List.take 4))
      = some (some [0, 0, 3342787234, 3141865529]) := by
  decide!

/-- C5 (the code departs from the claim): on the scheduled context of the test, two
consecutive calls of `ak_serpent_decrypt` on the ciphertext of the test block return first the
test block and then a different block, and `ak_serpent_encrypt` of the test block returns a
different ciphertext after a call of `ak_serpent_decrypt` than before it. -/
theorem decrypt_not_repeatable :
    ak_serpent_encrypt test_scheduled test_in
      = some ⟨3155256968, 3971326423, 1269192505, 2680355807⟩ ∧
    decrypt_twice test_env test_scheduled ⟨3155256968, 3971326423, 1269192505, 2680355807⟩
      = some (test_in, ⟨2292852895, 3349656923, 1432778496, 287454020⟩) ∧
    encrypt_around_decrypt test_env test_scheduled test_in
        ⟨3155256968, 3971326423, 1269192505, 2680355807⟩
      = some (⟨3155256968, 3971326423, 1269192505, 2680355807⟩,
          ⟨3054521874, 1544513085, 2861631033, 1237360295⟩) := by
  decide!

/-! ## Claims C7 to C10: error paths and erasure -/

/-- C7 (the code departs from the claim): for every non-null context whose key length is not
32, `ak_serpent_schedule_keys` allocates nothing and leaves the context unchanged, but the code
it returns is `ak_error_null_pointer`, the very code it returns for a null context, not a
code of its own for the key length. -/
theorem schedule_keys_wrong_length (env : Env) (s : skey) (h : s.key_size ≠ 32) :
    ak_serpent_schedule_keys env (some s) = ⟨.ak_error_null_pointer, some s, [], 0⟩ ∧
    (ak_serpent_schedule_keys env (some s)).error
      = (ak_serpent_schedule_keys env none).error := by
  simp [ak_serpent_schedule_keys, h, ak_error_message]

/-- C7 at a context with a 16-byte key. -/
theorem schedule_keys_wrong_length_witness :
    ak_serpent_schedule_keys test_env (some { test_skey with key_size := 16 })
      = ⟨.ak_error_null_pointer, some { test_skey with key_size := 16 }, [], 0⟩ ∧
    (ak_serpent_schedule_keys test_env (some { test_skey with key_size := 16 })).error
      = (ak_serpent_schedule_keys test_env none).error :=
  schedule_keys_wrong_length test_env { test_skey with key_size := 16 } (by decide)

/-- C8: `ak_serpent_schedule_keys` returns `ak_error_null_pointer` for a null context; for a
context with a 32-byte key whose integrity check fails it returns `ak_error_wrong_key_icode`,
allocates nothing and leaves the context as it was; for a context that passes both checks
while the allocation fails it returns `ak_error_out_of_memory`; and it returns `ak_error_ok`
exactly when the context is non-null, the key length is 32, the integrity check holds and the
allocation succeeds. -/
theorem schedule_keys_error_mapping (env : Env) (p : Option skey) :
    (p = none → (ak_serpent_schedule_keys env p).error = .ak_error_null_pointer) ∧
    (∀ s, p = some s → s.key_size = 32 → s.check_icode = false →
      ak_serpent_schedule_keys env p = ⟨.ak_error_wrong_key_icode, some s, [], 0⟩) ∧
    (∀ s, p = some s → s.key_size = 32 → s.check_icode = true →
      env.ak_aligned_malloc sizeof_expanded_keys = false →
      (ak_serpent_schedule_keys env p).error = .ak_error_out_of_memory) ∧
    ((ak_serpent_schedule_keys env p).error = .ak_error_ok ↔
      ∃ s, p = some s ∧ s.key_size = 32 ∧ s.check_icode = true ∧
        env.ak_aligned_malloc sizeof_expanded_keys = true) := by
  refine ⟨?_, ?_, ?_, ?_⟩
  · rintro rfl
    rfl
  · rintro s rfl hsize hic
    simp [ak_serpent_schedule_keys, hsize, hic, ak_error_message]
  · rintro s rfl hsize hic hmem
    simp [ak_serpent_schedule_keys, hsize, hic, hmem, ak_error_message]
  · cases p with
    | none => simp [ak_serpent_schedule_keys, ak_error_message]
    | some s =>
      by_cases hsize : s.key_size = 32
      · cases hic : s.check_icode
        · simp [ak_serpent_schedule_keys, hsize, hic, ak_error_message]
        · cases hmem : env.ak_aligned_malloc sizeof_expanded_keys
          · simp [ak_serpent_schedule_keys, hsize, hic, hmem, ak_error_message]
          · simp [ak_serpent_schedule_keys, hsize, hic, hmem, ak_error_message]
      · simp [ak_serpent_schedule_keys, hsize, ak_error_message]

/-- C9 as stated fails: a context that holds the round keys of an earlier successful call
still holds them after a call of `ak_serpent_schedule_keys` that fails on the integrity check
or on the key length. -/
theorem failed_schedule_keeps_keys :
    (ak_serpent_schedule_keys test_env (some { test_scheduled with check_icode := false })).error
      = .ak_error_wrong_key_icode ∧
    (ak_serpent_schedule_keys test_env (some { test_scheduled with check_icode := false })).skey
      = some { test_scheduled with check_icode := false } ∧
    (ak_serpent_schedule_keys test_env (some { test_scheduled with key_size := 16 })).error
      = .ak_error_null_pointer ∧
    (ak_serpent_schedule_keys test_env (some { test_scheduled with key_size := 16 })).skey
      = some { test_scheduled with key_size := 16 } ∧
    ({ test_scheduled with check_icode := false } : skey).data ≠ none ∧
    ({ test_scheduled with key_size := 16 } : skey).data ≠ none := by
  simp [ak_serpent_schedule_keys, ak_error_message, test_scheduled, test_skey]

/-- C10: `ak_serpent_delete_keys` on a non-null context without expanded keys returns
`ak_error_ok` and changes nothing; after any call on a non-null context, whatever the wipe
returned, the context holds no expanded keys, and a second call returns `ak_error_ok` and
changes nothing. -/
theorem delete_keys_idempotent (env env1 : Env) (s : skey) :
    ak_serpent_delete_keys env (some { s with data := none })
      = ⟨.ak_error_ok, some { s with data := none }, [], 0⟩ ∧
    ∃ s1, (ak_serpent_delete_keys env (some s)).skey = some s1 ∧ s1.data = none ∧
      ak_serpent_delete_keys env1 (some s1) = ⟨.ak_error_ok, some s1, [], 0⟩ := by
  refine ⟨rfl, ?_⟩
  cases hd : s.data with
  | none =>
    exact ⟨s, by simp [ak_serpent_delete_keys, hd], hd, by simp [ak_serpent_delete_keys, hd]⟩
  | some d =>
    refine ⟨⟨s.key, s.key_size, s.check_icode, none,
      (env.ak_ptr_wipe d sizeof_expanded_keys s.generator).generator⟩, ?_, rfl, rfl⟩
    simp [ak_serpent_delete_keys, hd]

/-! ## Claim C2: encryption against the reference of section 4.2 -/

theorem spec_bit_eq_toNat (x j : Nat) : spec_bit x j = (x.testBit j).toNat := by
  unfold spec_bit
  rw [Nat.toNat_testBit]

theorem spec_nibble_eq_gather (x : Words4) (j : Nat) : spec_nibble x j = gather x j := by
  unfold spec_nibble gather
  simp only [spec_bit_eq_toNat, bit_eq_toNat]
  cases x.w0.testBit j <;> cases x.w1.testBit j <;> cases x.w2.testBit j <;>
    cases x.w3.testBit j <;> decide

theorem spec_shl_eq (x s : Nat) : spec_shl x s = shl32 x s := by
  rw [spec_shl, shl32_eq_mul]

theorem spec_rotl_eq (x s : Nat) (hx : x < 2 ^ 32) (hs : s ≤ 32) :
    spec_rotl x s = ak_uint32_cyclic_bit_shift x s := by
  have hpow : (2 : Nat) ^ 32 = 2 ^ (32 - s) * 2 ^ s := by
    rw [← Nat.pow_add]; congr 1; omega
  rw [cyclic_eq_add x s hx hs, spec_rotl]
  congr 1
  rw [hpow, Nat.mul_mod_mul_right, Nat.mul_comm]

/-- The partial sums of `spec_word`: below `2 ^ n`, with bit `m` equal to `b m` below `n`. -/
theorem spec_sum_bits (b : Nat → Nat) (hb : ∀ j, b j ≤ 1) (n : Nat) :
    ((List.range n).map fun j => 2 ^ j * b j).sum < 2 ^ n ∧
    ∀ m, (((List.range n).map fun j => 2 ^ j * b j).sum).testBit m
      = (decide (m < n) && decide (b m = 1)) := by
  induction n with
  | zero => simp
  | succ n ih =>
    obtain ⟨hlt, hbits⟩ := ih
    rw [List.range_succ, List.map_append, List.sum_append, List.map_singleton,
      List.sum_singleton]
    constructor
    · have := hb n
      have h2 : 2 ^ n * b n ≤ 2 ^ n := by
        calc 2 ^ n * b n ≤ 2 ^ n * 1 := Nat.mul_le_mul_left _ this
          _ = 2 ^ n := Nat.mul_one _
      rw [Nat.pow_succ]
      omega
    · intro m
      rw [Nat.add_comm, Nat.testBit_mul_pow_two_add _ hlt]
      by_cases hm : m < n
      · have : m < n + 1 := by omega
        simp [hm, this, hbits]
      · by_cases hmn : m = n
        · subst hmn
          have := hb m
          have hcases : b m = 0 ∨ b m = 1 := by omega
          rcases hcases with h0 | h1
          · simp [h0]
          · simp [h1]
        · have h1 : ¬ m < n + 1 := by omega
          have h2 : m - n ≠ 0 := by omega
          have := hb n
          have hcases : b n = 0 ∨ b n = 1 := by omega
          rcases hcases with h0 | h1'
          · simp [hm, h1, h0]
          · have h3 : Nat.testBit 1 (m - n) = false := by
              cases h : Nat.testBit 1 (m - n)
              · rfl
              · exact absurd (Nat.testBit_one_eq_true_iff_self_eq_zero.mp h) h2
            simp [hm, h1, h1', h3]

theorem spec_bit_le_one (x j : Nat) : spec_bit x j ≤ 1 := by
  unfold spec_bit
  omega

theorem spec_bit_eq_one (x j : Nat) : decide (spec_bit x j = 1) = x.testBit j := by
  rw [spec_bit_eq_toNat]
  cases x.testBit j <;> rfl

theorem spec_substitute_get (r : Nat) (x : Words4) (k : Nat) (hk : k < 4) :
    (spec_substitute r x).get k
      = spec_word fun j => spec_bit (tab serpent_s_box r (spec_nibble x j)) k := by
  interval_cases k <;> rfl

theorem spec_substitute_eq (r : Nat) (x : Words4) :
    spec_substitute r x = sbox_loop serpent_s_box r x ⟨0, 0, 0, 0⟩ := by
  apply Words4.ext_get
  intro k hk
  apply Nat.eq_of_testBit_eq
  intro m
  rw [spec_substitute_get _ _ _ hk, sbox_loop_testBit _ _ _ _ hk, spec_word,
    (spec_sum_bits _ (fun j => spec_bit_le_one _ _) 32).2, spec_bit_eq_one,
    spec_nibble_eq_gather]

theorem spec_linear_eq (w : Words4) (h : w.wf) : spec_linear w = encrypt_linear w := by
  obtain ⟨h0, h1, h2, h3⟩ := h
  obtain ⟨w0, w1, w2, w3⟩ := w
  simp only at h0 h1 h2 h3
  have a0 := cyclic_lt w0 13
  have a2 := cyclic_lt w2 3
  have a1 : w1 ^^^ ak_uint32_cyclic_bit_shift w0 13 ^^^ ak_uint32_cyclic_bit_shift w2 3
      < 2 ^ 32 := xor_lt3 h1 a0 a2
  have a3 : w3 ^^^ ak_uint32_cyclic_bit_shift w2 3 ^^^ shl32 (ak_uint32_cyclic_bit_shift w0 13) 3
      < 2 ^ 32 := xor_lt3 h3 a2 (shl32_lt _ _)
  have b0 := xor_lt3 a0
    (cyclic_lt (w1 ^^^ ak_uint32_cyclic_bit_shift w0 13 ^^^ ak_uint32_cyclic_bit_shift w2 3) 1)
    (cyclic_lt
      (w3 ^^^ ak_uint32_cyclic_bit_shift w2 3 ^^^ shl32 (ak_uint32_cyclic_bit_shift w0 13) 3) 7)
  have b2 := xor_lt3 a2
    (cyclic_lt
      (w3 ^^^ ak_uint32_cyclic_bit_shift w2 3 ^^^ shl32 (ak_uint32_cyclic_bit_shift w0 13) 3) 7)
    (shl32_lt (ak_uint32_cyclic_bit_shift
      (w1 ^^^ ak_uint32_cyclic_bit_shift w0 13 ^^^ ak_uint32_cyclic_bit_shift w2 3) 1) 7)
  simp only [spec_linear, encrypt_linear, spec_shl_eq]
  rw [spec_rotl_eq w0 13 h0 (by norm_num), spec_rotl_eq w2 3 h2 (by norm_num),
    spec_rotl_eq _ 1 a1 (by norm_num), spec_rotl_eq _ 7 a3 (by norm_num),
    spec_rotl_eq _ 5 b0 (by norm_num), spec_rotl_eq _ 22 b2 (by norm_num)]

theorem spec_round_eq (keys : List Nat) (st : EncState) (i : Nat) (hi : i < 31) :
    (encrypt_round keys st i).original_data_part
      = spec_round (key_part keys) st.original_data_part i := by
  simp only [encrypt_round, spec_round, hi, if_true, spec_substitute_eq]
  rw [spec_linear_eq _ (sbox_loop_wf _ _ _)]

theorem spec_rounds_eq (keys : List Nat) (B : Words4) (o : Option Words4) (n : Nat)
    (hn : n ≤ 31) :
    ((List.range n).foldl (encrypt_round keys) ⟨B, o⟩).original_data_part
      = (List.range n).foldl (spec_round (key_part keys)) B := by
  induction n with
  | zero => rfl
  | succ n ih =>
    rw [List.range_succ, List.foldl_append, List.foldl_append, List.foldl_cons, List.foldl_nil,
      List.foldl_cons, List.foldl_nil, spec_round_eq _ _ _ (by omega), ih (by omega)]

/-- C2: for every block and every array of round keys, the block `ak_serpent_encrypt` leaves
in `out` is the final state of the reference of section 4.2: rounds `i = 0..31` of XOR with
round key `i`, bit-slice substitution through `serpent_s_box[i mod 8]`, then the forward
linear transform for `i < 31` and the XOR with round key 32 for `i = 31`. -/
theorem encrypt_matches_reference (s : skey) (keys : List Nat) (B : Words4) :
    ak_serpent_encrypt { s with data := some keys } B
      = some (spec_encrypt (key_part keys) B) := by
  have h32 : List.range 32 = List.range 31 ++ [31] := List.range_succ 31
  rw [ak_serpent_encrypt_eq _ keys rfl, encrypt_rounds_out, spec_encrypt, h32,
    List.foldl_append, List.foldl_cons, List.foldl_nil, spec_rounds_eq _ _ _ _ (le_refl 31)]
  simp only [spec_round, lt_irrefl, if_false, spec_substitute_eq]

/-! ## Claim C3: the key schedule against the reference of section 4.1 -/

theorem getD_set_nat (l : List Nat) (i j v : Nat) :
    (l.set i v).getD j 0 = if i = j ∧ i < l.length then v else l.getD j 0 := by
  simp only [List.getD_eq_getElem?_getD, List.getElem?_set]
  by_cases h : i = j
  · subst h
    by_cases h2 : i < l.length
    · simp [h2]
    · have : l[i]? = none := List.getElem?_eq_none (by omega)
      simp [h2, this]
  · simp [h]

theorem load_key_fold (f : Nat → Nat) (init : List Nat) (n : Nat) :
    ((List.range n).foldl (fun odk i => odk.set i (f i)) init).length = init.length ∧
    ∀ m, ((List.range n).foldl (fun odk i => odk.set i (f i)) init).getD m 0
      = if m < n ∧ m < init.length then f m else init.getD m 0 := by
  induction n with
  | zero => simp
  | succ n ih =>
    obtain ⟨hlen, hget⟩ := ih
    rw [List.range_succ, List.foldl_append, List.foldl_cons, List.foldl_nil]
    refine ⟨by rw [List.length_set, hlen], fun m => ?_⟩
    rw [getD_set_nat, hget, hlen]
    by_cases hmn : n = m
    · subst hmn
      by_cases hl : n < init.length
      · simp [hl]
      · simp [hl]
    · by_cases hlt : m < n
      · have : m < n + 1 := by omega
        simp [hmn, hlt, this]
      · have : ¬ m < n + 1 := by omega
        simp [hmn, hlt, this]

theorem length_load_key (key : List Nat) : (load_key key).length = 140 := by
  unfold load_key
  rw [(load_key_fold _ _ 8).1]
  simp

theorem getD_lt_of_bytes {key : List Nat} (h : ∀ b ∈ key, b < 256) (n : Nat) :
    key.getD n 0 < 256 := by
  by_cases hn : n < key.length
  · rw [List.getD_eq_getElem _ _ hn]
    exact h _ (List.getElem_mem hn)
  · rw [List.getD_eq_default _ _ (by omega)]
    norm_num

theorem getD_load_key (key : List Nat) (h : ∀ b ∈ key, b < 256) (m : Nat) (hm : m < 8) :
    (load_key key).getD m 0 = spec_prekey key m ∧ (load_key key).getD m 0 < 2 ^ 32 := by
  have hget : (load_key key).getD m 0
      = key.getD (m * 4 + 0) 0 % 256 + 2 ^ 8 * (key.getD (m * 4 + 1) 0 % 256)
        + 2 ^ 16 * (key.getD (m * 4 + 2) 0 % 256) + 2 ^ 24 * (key.getD (m * 4 + 3) 0 % 256) := by
    unfold load_key
    rw [(load_key_fold _ _ 8).2]
    have : m < 8 ∧ m < (List.replicate 140 0).length := ⟨hm, by simp; omega⟩
    rw [if_pos this]
  have e0 : m * 4 + 0 = 4 * m := by omega
  have e1 : m * 4 + 1 = 4 * m + 1 := by omega
  have e2 : m * 4 + 2 = 4 * m + 2 := by omega
  have e3 : m * 4 + 3 = 4 * m + 3 := by omega
  have b0 := getD_lt_of_bytes h (4 * m)
  have b1 := getD_lt_of_bytes h (4 * m + 1)
  have b2 := getD_lt_of_bytes h (4 * m + 2)
  have b3 := getD_lt_of_bytes h (4 * m + 3)
  rw [hget, e0, e1, e2, e3, Nat.mod_eq_of_lt b0, Nat.mod_eq_of_lt b1, Nat.mod_eq_of_lt b2,
    Nat.mod_eq_of_lt b3]
  constructor
  · rw [spec_prekey, dif_pos hm, spec_key_word]
  · omega

theorem expand_key_fold (key : List Nat) (h : ∀ b ∈ key, b < 256) (n : Nat) (hn : n ≤ 132) :
    ((List.range' 8 n).foldl (fun odk i =>
      odk.set i (ak_uint32_cyclic_bit_shift
        (odk.getD (i - 8) 0 ^^^ odk.getD (i - 5) 0 ^^^ odk.getD (i - 3) 0
          ^^^ odk.getD (i - 1) 0 ^^^ phi ^^^ (i - 8)) 11)) (load_key key)).length = 140 ∧
    ∀ m, m < 8 + n →
      ((List.range' 8 n).foldl (fun odk i =>
        odk.set i (ak_uint32_cyclic_bit_shift
          (odk.getD (i - 8) 0 ^^^ odk.getD (i - 5) 0 ^^^ odk.getD (i - 3) 0
            ^^^ odk.getD (i - 1) 0 ^^^ phi ^^^ (i - 8)) 11)) (load_key key)).getD m 0
        = spec_prekey key m ∧ spec_prekey key m < 2 ^ 32 := by
  induction n with
  | zero =>
    refine ⟨length_load_key key, fun m hm => ?_⟩
    have := getD_load_key key h m (by omega)
    exact ⟨this.1, this.1 ▸ this.2⟩
  | succ n ih =>
    obtain ⟨hlen, hget⟩ := ih (by omega)
    rw [List.range'_concat, List.foldl_append, List.foldl_cons, List.foldl_nil]
    refine ⟨by rw [List.length_set, hlen], fun m hm => ?_⟩
    rw [getD_set_nat, hlen]
    by_cases hmn : 8 + 1 * n = m
    · have hi : 8 + 1 * n < 140 := by omega
      rw [if_pos ⟨hmn, hi⟩]
      have hm8 : ¬ m < 8 := by omega
      have g8 := hget (m - 8) (by omega)
      have g5 := hget (m - 5) (by omega)
      have g3 := hget (m - 3) (by omega)
      have g1 := hget (m - 1) (by omega)
      have hphi : (0x9e3779b9 : Nat) < 2 ^ 32 := by norm_num
      have hidx : m - 8 < 2 ^ 32 := by omega
      have hx : spec_prekey key (m - 8) ^^^ spec_prekey key (m - 5) ^^^ spec_prekey key (m - 3)
          ^^^ spec_prekey key (m - 1) ^^^ 0x9e3779b9 ^^^ (m - 8) < 2 ^ 32 :=
        Nat.xor_lt_two_pow (Nat.xor_lt_two_pow (Nat.xor_lt_two_pow (Nat.xor_lt_two_pow
          (Nat.xor_lt_two_pow g8.2 g5.2) g3.2) g1.2) hphi) hidx
      have hspec : spec_prekey key m = ak_uint32_cyclic_bit_shift
          (spec_prekey key (m - 8) ^^^ spec_prekey key (m - 5) ^^^ spec_prekey key (m - 3)
            ^^^ spec_prekey key (m - 1) ^^^ 0x9e3779b9 ^^^ (m - 8)) 11 := by
        rw [spec_prekey, dif_neg hm8, spec_rotl_eq _ 11 hx (by norm_num)]
      rw [hmn, g8.1, g5.1, g3.1, g1.1, hspec]
      exact ⟨rfl, cyclic_lt _ _⟩
    · have : ¬ (8 + 1 * n = m ∧ 8 + 1 * n < 140) := fun hc => hmn hc.1
      rw [if_neg this]
      exact hget m (by omega)

theorem getD_original_divided_key (key : List Nat) (h : ∀ b ∈ key, b < 256) (m : Nat)
    (hm : m < 140) : (original_divided_key key).getD m 0 = spec_prekey key m :=
  ((expand_key_fold key h 132 (le_refl _)).2 m (by omega)).1

theorem prekey_group_eq (key : List Nat) (h : ∀ b ∈ key, b < 256) (i : Nat) (hi : i ≤ 32) :
    prekey_group (original_divided_key key) i = spec_prekey_group key i := by
  unfold prekey_group spec_prekey_group
  rw [getD_original_divided_key key h _ (by omega), getD_original_divided_key key h _ (by omega),
    getD_original_divided_key key h _ (by omega), getD_original_divided_key key h _ (by omega)]
  have e1 : 8 + 1 + 4 * i = 8 + 4 * i + 1 := by omega
  have e2 : 8 + 2 + 4 * i = 8 + 4 * i + 2 := by omega
  have e3 : 8 + 3 + 4 * i = 8 + 4 * i + 3 := by omega
  rw [e1, e2, e3]

theorem gather_sbox_loop (t : List (List Nat)) (r : Nat) (x : Words4) (m : Nat) (hm : m < 32)
    (ht : tab t r (gather x m) < 16) :
    gather (sbox_loop t r x ⟨0, 0, 0, 0⟩) m = tab t r (gather x m) := by
  apply gather_eq_of_testBit _ _ _ ht
  intro k hk
  rw [sbox_loop_testBit _ _ _ _ hk]
  simp [hm]

/-- C3: for every context with a 32-byte key on which `ak_serpent_schedule_keys` succeeds, the
stored round keys are 33 groups of four 32-bit words, and at every bit position `j = 0..31`
the 4-bit value of round key `i = 0..32` is the image under `serpent_s_box[(32 + 3 - i) mod 8]`
of the 4-bit value of the prekey words `8 + 4 i .. 8 + 4 i + 3`, the prekeys being the
little-endian key words continued by the recurrence of section 4.1. -/
theorem schedule_matches_reference (env : Env) (s : skey) (hsize : s.key_size = 32)
    (hic : s.check_icode = true) (hmem : env.ak_aligned_malloc sizeof_expanded_keys = true)
    (hbytes : ∀ b ∈ s.key, b < 256) :
    ∃ s1 keys, (ak_serpent_schedule_keys env (some s)).error = .ak_error_ok ∧
      (ak_serpent_schedule_keys env (some s)).skey = some s1 ∧ s1.data = some keys ∧
      keys.length = 33 * 4 ∧ keys_wf keys ∧
      ∀ i, i ≤ 32 → ∀ j, j < 32 →
        spec_nibble (key_part keys i) j
          = tab serpent_s_box ((32 + 3 - i) % 8) (spec_nibble (spec_prekey_group s.key i) j) := by
  obtain ⟨g, freed, hs⟩ := schedule_keys_ok env s hsize hic hmem
  refine ⟨_, expanded_keys s.key, by rw [hs], by rw [hs], rfl, length_expanded_keys _,
    expanded_keys_wf _, fun i hi j hj => ?_⟩
  rw [spec_nibble_eq_gather, spec_nibble_eq_gather, key_part_expanded_keys _ _ (by omega),
    prekey_group_eq _ hbytes _ hi]
  exact gather_sbox_loop _ _ _ _ hj
    (sbox_tables _ (Nat.mod_lt _ (by norm_num)) _ (gather_lt _ _)).1

/-- C3 at the key of `examples/test-serpent.c`. -/
theorem schedule_matches_reference_witness :
    ∃ s1 keys, (ak_serpent_schedule_keys test_env (some test_skey)).error = .ak_error_ok ∧
      (ak_serpent_schedule_keys test_env (some test_skey)).skey = some s1 ∧
      s1.data = some keys ∧ keys.length = 33 * 4 ∧ keys_wf keys ∧
      ∀ i, i ≤ 32 → ∀ j, j < 32 →
        spec_nibble (key_part keys i) j
          = tab serpent_s_box ((32 + 3 - i) % 8)
              (spec_nibble (spec_prekey_group test_skey.key i) j) :=
  schedule_matches_reference test_env test_skey rfl rfl rfl (by decide)

/-! ## Claims C11 to C13: wipe failures and determinism of the schedule -/

theorem store_words_zero (d : List Nat) (n : Nat) (h : d.length ≤ n) :
    store_words d 0 n [] = List.replicate d.length 0 := by
  unfold store_words
  apply List.ext_getElem
  · simp
  · intro k h1 h2
    have hk : k < d.length := by simpa using h1
    have hn : k < n := by omega
    simp [hn]

theorem length_store_words (d : List Nat) (off n : Nat) (w : List Nat) :
    (store_words d off n w).length = d.length := by
  simp [store_words]

/-- C11: for every context that holds a schedule of 33 round keys, `ak_serpent_delete_keys`
returns exactly the code of the wipe (so `ak_error_ok` when the wipe succeeds) and leaves the
context without a schedule; when the wipe failed, the block it passes to `free` holds 132
zero words, that is 528 zero bytes; for a null context it returns `ak_error_null_pointer`. -/
theorem delete_keys_wipe_failure (env : Env) (s : skey) (d : List Nat)
    (hd : s.data = some d) (hlen : d.length = 132) :
    (ak_serpent_delete_keys env (some s)).error
      = (env.ak_ptr_wipe d sizeof_expanded_keys s.generator).error ∧
    (ak_serpent_delete_keys env (some s)).skey
      = some { s with data := none,
                      generator := (env.ak_ptr_wipe d sizeof_expanded_keys s.generator).generator } ∧
    ((env.ak_ptr_wipe d sizeof_expanded_keys s.generator).error ≠ .ak_error_ok →
      (ak_serpent_delete_keys env (some s)).freed = [List.replicate (33 * 4) 0]) ∧
    (ak_serpent_delete_keys env none).error = .ak_error_null_pointer := by
  refine ⟨by simp [ak_serpent_delete_keys, hd], by simp [ak_serpent_delete_keys, hd], ?_, rfl⟩
  intro he
  have hz := store_words_zero
    (store_words d 0 (sizeof_expanded_keys / 4)
      (env.ak_ptr_wipe d sizeof_expanded_keys s.generator).written) (sizeof_expanded_keys / 4)
    (by rw [length_store_words, hlen]; decide)
  rw [length_store_words, hlen] at hz
  simp only [ak_serpent_delete_keys, hd, he, ne_eq, not_false_eq_true, if_true, hz]

/-- C11 at the scheduled context of the test with a wipe that fails. -/
theorem delete_keys_wipe_failure_witness :
    (ak_serpent_delete_keys failing_wipe_env (some test_scheduled)).error
      = (failing_wipe_env.ak_ptr_wipe (expanded_keys test_key) sizeof_expanded_keys
          test_scheduled.generator).error ∧
    (ak_serpent_delete_keys failing_wipe_env (some test_scheduled)).skey
      = some { test_scheduled with
          data := none,
          generator := (failing_wipe_env.ak_ptr_wipe (expanded_keys test_key)
            sizeof_expanded_keys test_scheduled.generator).generator } ∧
    ((failing_wipe_env.ak_ptr_wipe (expanded_keys test_key) sizeof_expanded_keys
        test_scheduled.generator).error ≠ .ak_error_ok →
      (ak_serpent_delete_keys failing_wipe_env (some test_scheduled)).freed
        = [List.replicate (33 * 4) 0]) ∧
    (ak_serpent_delete_keys failing_wipe_env none).error = .ak_error_null_pointer :=
  delete_keys_wipe_failure failing_wipe_env test_scheduled (expanded_keys test_key) rfl
    (length_expanded_keys test_key)

/-- C12 as stated fails: on the scheduled context of the test, with a wipe that fails on every
call, `ak_serpent_schedule_keys` returns `ak_error_ok`, not the code of the wipe. -/
theorem schedule_keys_hides_wipe_failure :
    (failing_wipe_env.ak_ptr_wipe (expanded_keys test_key) sizeof_expanded_keys 0).error
      = .other (-1) ∧
    (ak_serpent_delete_keys failing_wipe_env (some test_scheduled)).error = .other (-1) ∧
    (ak_serpent_schedule_keys failing_wipe_env (some test_scheduled)).error = .ak_error_ok := by
  simp [ak_serpent_schedule_keys, ak_serpent_delete_keys, test_scheduled, test_skey,
    failing_wipe_env, sizeof_expanded_keys]

/-- C12 amended: on a context that passes the length and integrity checks, the code
`ak_serpent_schedule_keys` returns is decided by the allocation alone, `ak_error_ok` when it
succeeds and `ak_error_out_of_memory` when it fails, whatever the wipe returns while the old
schedule is erased or the scratch buffers are wiped. -/
theorem schedule_keys_ignores_wipe (env : Env) (s : skey) (hsize : s.key_size = 32)
    (hic : s.check_icode = true) :
    (ak_serpent_schedule_keys env (some s)).error
      = if env.ak_aligned_malloc sizeof_expanded_keys = true then .ak_error_ok
        else .ak_error_out_of_memory := by
  cases hmem : env.ak_aligned_malloc sizeof_expanded_keys
  · simp [ak_serpent_schedule_keys, hsize, hic, hmem, ak_error_message]
  · obtain ⟨g, freed, hs⟩ := schedule_keys_ok env s hsize hic hmem
    rw [hs]
    simp

/-- C12 amended, at the scheduled context of the test with a wipe that fails. -/
theorem schedule_keys_ignores_wipe_witness :
    (ak_serpent_schedule_keys failing_wipe_env (some test_scheduled)).error
      = if failing_wipe_env.ak_aligned_malloc sizeof_expanded_keys = true then .ak_error_ok
        else .ak_error_out_of_memory :=
  schedule_keys_ignores_wipe failing_wipe_env test_scheduled rfl rfl

/-- A successful call of `ak_serpent_schedule_keys` stores the round keys of the key bytes. -/
theorem schedule_keys_data_of_ok (env : Env) (s : skey)
    (h : (ak_serpent_schedule_keys env (some s)).error = .ak_error_ok) :
    Option.bind (ak_serpent_schedule_keys env (some s)).skey skey.data
      = some (expanded_keys s.key) := by
  by_cases hsize : s.key_size = 32
  · cases hic : s.check_icode
    · simp [ak_serpent_schedule_keys, hsize, hic, ak_error_message] at h
    · cases hmem : env.ak_aligned_malloc sizeof_expanded_keys
      · simp [ak_serpent_schedule_keys, hsize, hic, hmem, ak_error_message] at h
      · obtain ⟨g, freed, hs⟩ := schedule_keys_ok env s hsize hic hmem
        rw [hs]
        rfl
  · simp [ak_serpent_schedule_keys, hsize, ak_error_message] at h

/-- C13: any two successful runs of `ak_serpent_schedule_keys` on contexts with the same key
bytes, in any environments and whatever the contexts held before, store the same 33 round
keys, which are a function of the key bytes alone. -/
theorem schedule_deterministic (env env1 : Env) (s s1 : skey) (hk : s.key = s1.key)
    (h : (ak_serpent_schedule_keys env (some s)).error = .ak_error_ok)
    (h1 : (ak_serpent_schedule_keys env1 (some s1)).error = .ak_error_ok) :
    Option.bind (ak_serpent_schedule_keys env (some s)).skey skey.data
      = some (expanded_keys s.key) ∧
    Option.bind (ak_serpent_schedule_keys env1 (some s1)).skey skey.data
      = Option.bind (ak_serpent_schedule_keys env (some s)).skey skey.data ∧
    (expanded_keys s.key).length = 33 * 4 := by
  refine ⟨schedule_keys_data_of_ok env s h, ?_, length_expanded_keys _⟩
  rw [schedule_keys_data_of_ok env s h, schedule_keys_data_of_ok env1 s1 h1, hk]

/-- C13 at the key of the test: a fresh context, and a context that holds other words and
whose wipe fails. -/
theorem schedule_deterministic_witness :
    Option.bind (ak_serpent_schedule_keys test_env (some test_skey)).skey skey.data
      = some (expanded_keys test_skey.key) ∧
    Option.bind (ak_serpent_schedule_keys failing_wipe_env
        (some { test_skey with data := some demo_keys, generator := 5 })).skey skey.data
      = Option.bind (ak_serpent_schedule_keys test_env (some test_skey)).skey skey.data ∧
    (expanded_keys test_skey.key).length = 33 * 4 :=
  schedule_deterministic test_env failing_wipe_env test_skey
    { test_skey with data := some demo_keys, generator := 5 } rfl
    (by simp [ak_serpent_schedule_keys, test_skey, test_env, sizeof_expanded_keys])
    (by simp [ak_serpent_schedule_keys, ak_serpent_delete_keys, test_skey, failing_wipe_env,
      sizeof_expanded_keys])

/-! ## Claims C14, C15 and C17: tables, linear transforms, rotation -/

set_option maxRecDepth 20000 in
/-- C14: for every table index `t = 0..7`, row `t` of `serpent_s_box` is a permutation of
`0..15`, and rows `t` of `serpent_s_box` and `serpent_inv_s_box` undo each other in both
orders at every `x = 0..15`. -/
theorem sbox_inverse (t : Nat) (ht : t < 8) :
    (serpent_s_box.getD t []).Perm (List.range 16) ∧
    ∀ x, x < 16 →
      tab serpent_inv_s_box t (tab serpent_s_box t x) = x ∧
      tab serpent_s_box t (tab serpent_inv_s_box t x) = x := by
  revert t
  decide

/-- C14 at table 0. -/
theorem sbox_inverse_witness :
    (serpent_s_box.getD 0 []).Perm (List.range 16) ∧
    ∀ x, x < 16 →
      tab serpent_inv_s_box 0 (tab serpent_s_box 0 x) = x ∧
      tab serpent_s_box 0 (tab serpent_inv_s_box 0 x) = x :=
  sbox_inverse 0 (by decide)

/-- C15: on every state of four 32-bit words the inverse linear transform of
`ak_serpent_decrypt` undoes the forward linear transform of `ak_serpent_encrypt`, and the
forward transform undoes the inverse one. -/
theorem linear_transforms_inverse (d : Words4) (h : d.wf) :
    decrypt_linear (encrypt_linear d) = d ∧ encrypt_linear (decrypt_linear d) = d :=
  ⟨decrypt_encrypt_linear d h, encrypt_decrypt_linear d h⟩

/-- C15 at the block of the test. -/
theorem linear_transforms_inverse_witness :
    decrypt_linear (encrypt_linear test_in) = test_in ∧
    encrypt_linear (decrypt_linear test_in) = test_in :=
  linear_transforms_inverse test_in (by decide)

/-- C17: for every 32-bit word `x` and every shift `1 ≤ s ≤ 31`,
`ak_uint32_cyclic_bit_shift (x, s)` is `((x * 2^s) mod 2^32) + (x div 2^(32-s))`, a 32-bit word
whose bit `(j + s) mod 32` is bit `j` of `x`, so no bit is lost; and every rotation amount
that the file passes lies in `1..31`. -/
theorem cyclic_shift_is_rotation (x s : Nat) (hx : x < 2 ^ 32) (h1 : 1 ≤ s) (h2 : s ≤ 31) :
    ak_uint32_cyclic_bit_shift x s = (x * 2 ^ s) % 2 ^ 32 + x / 2 ^ (32 - s) ∧
    ak_uint32_cyclic_bit_shift x s < 2 ^ 32 ∧
    (∀ j, j < 32 → (ak_uint32_cyclic_bit_shift x s).testBit ((j + s) % 32) = x.testBit j) ∧
    ∀ a ∈ rotation_amounts, 1 ≤ a ∧ a ≤ 31 := by
  refine ⟨?_, cyclic_lt x s, ?_, by decide⟩
  · rw [← spec_rotl_eq x s hx (by omega), spec_rotl]
  · intro j hj
    rw [cyclic_testBit x s _ hx (by omega) (by omega)]
    have e0 : (j + s) % 32 < 32 := Nat.mod_lt _ (by norm_num)
    have e1 : ((j + s) % 32 + (32 - s)) % 32 = j := by omega
    simp [e0, e1]

/-- C17 at the first key word of the test and the rotation of the key schedule. -/
theorem cyclic_shift_is_rotation_witness :
    ak_uint32_cyclic_bit_shift 0x89abcdef 11
      = (0x89abcdef * 2 ^ 11) % 2 ^ 32 + 0x89abcdef / 2 ^ (32 - 11) ∧
    ak_uint32_cyclic_bit_shift 0x89abcdef 11 < 2 ^ 32 ∧
    (∀ j, j < 32 →
      (ak_uint32_cyclic_bit_shift 0x89abcdef 11).testBit ((j + 11) % 32)
        = Nat.testBit 0x89abcdef j) ∧
    ∀ a ∈ rotation_amounts, 1 ≤ a ∧ a ≤ 31 :=
  cyclic_shift_is_rotation 0x89abcdef 11 (by decide) (by decide) (by decide)

/-! ## Claim C19: the forward linear transform is linear over GF(2) -/

theorem cyclic_xor (x y s : Nat) (hx : x < 2 ^ 32) (hy : y < 2 ^ 32) (hs0 : 0 < s)
    (hs : s < 32) :
    ak_uint32_cyclic_bit_shift (x ^^^ y) s
      = ak_uint32_cyclic_bit_shift x s ^^^ ak_uint32_cyclic_bit_shift y s := by
  apply Nat.eq_of_testBit_eq
  intro j
  rw [Nat.testBit_xor, cyclic_testBit _ _ _ (Nat.xor_lt_two_pow hx hy) hs0 hs,
    cyclic_testBit _ _ _ hx hs0 hs, cyclic_testBit _ _ _ hy hs0 hs, Nat.testBit_xor]
  cases decide (j < 32) <;> simp

theorem shl32_xor (x y s : Nat) : shl32 (x ^^^ y) s = shl32 x s ^^^ shl32 y s := by
  apply Nat.eq_of_testBit_eq
  intro j
  simp only [shl32, Nat.testBit_mod_two_pow, Nat.testBit_shiftLeft, Nat.testBit_xor]
  cases decide (j < 32) <;> cases decide (j ≥ s) <;> simp

theorem xor_shuffle3 (a a1 b b1 c c1 : Nat) :
    (a ^^^ a1) ^^^ (b ^^^ b1) ^^^ (c ^^^ c1) = (a ^^^ b ^^^ c) ^^^ (a1 ^^^ b1 ^^^ c1) := by
  apply Nat.eq_of_testBit_eq
  intro i
  simp only [Nat.testBit_xor]
  cases a.testBit i <;> cases a1.testBit i <;> cases b.testBit i <;> cases b1.testBit i <;>
    cases c.testBit i <;> cases c1.testBit i <;> rfl

/-- C19: the forward linear transform of `ak_serpent_encrypt` is linear over GF(2) on states
of four 32-bit words: the transform of a word-wise XOR is the word-wise XOR of the transforms,
and the all-zero state is mapped to itself. -/
theorem encrypt_linear_is_linear (x y : Words4) (hx : x.wf) (hy : y.wf) :
    encrypt_linear (xor4 x y) = xor4 (encrypt_linear x) (encrypt_linear y) ∧
    encrypt_linear ⟨0, 0, 0, 0⟩ = ⟨0, 0, 0, 0⟩ := by
  refine ⟨?_, by decide⟩
  obtain ⟨x0, x1, x2, x3⟩ := x
  obtain ⟨y0, y1, y2, y3⟩ := y
  obtain ⟨hx0, hx1, hx2, hx3⟩ := hx
  obtain ⟨hy0, hy1, hy2, hy3⟩ := hy
  simp only at hx0 hx1 hx2 hx3 hy0 hy1 hy2 hy3
  have ax1 : x1 ^^^ ak_uint32_cyclic_bit_shift x0 13 ^^^ ak_uint32_cyclic_bit_shift x2 3
      < 2 ^ 32 := xor_lt3 hx1 (cyclic_lt _ _) (cyclic_lt _ _)
  have ay1 : y1 ^^^ ak_uint32_cyclic_bit_shift y0 13 ^^^ ak_uint32_cyclic_bit_shift y2 3
      < 2 ^ 32 := xor_lt3 hy1 (cyclic_lt _ _) (cyclic_lt _ _)
  have ax3 : x3 ^^^ ak_uint32_cyclic_bit_shift x2 3 ^^^ shl32 (ak_uint32_cyclic_bit_shift x0 13) 3
      < 2 ^ 32 := xor_lt3 hx3 (cyclic_lt _ _) (shl32_lt _ _)
  have ay3 : y3 ^^^ ak_uint32_cyclic_bit_shift y2 3 ^^^ shl32 (ak_uint32_cyclic_bit_shift y0 13) 3
      < 2 ^ 32 := xor_lt3 hy3 (cyclic_lt _ _) (shl32_lt _ _)
  have bx0 := xor_lt3 (cyclic_lt x0 13)
    (cyclic_lt (x1 ^^^ ak_uint32_cyclic_bit_shift x0 13 ^^^ ak_uint32_cyclic_bit_shift x2 3) 1)
    (cyclic_lt
      (x3 ^^^ ak_uint32_cyclic_bit_shift x2 3 ^^^ shl32 (ak_uint32_cyclic_bit_shift x0 13) 3) 7)
  have by0 := xor_lt3 (cyclic_lt y0 13)
    (cyclic_lt (y1 ^^^ ak_uint32_cyclic_bit_shift y0 13 ^^^ ak_uint32_cyclic_bit_shift y2 3) 1)
    (cyclic_lt
      (y3 ^^^ ak_uint32_cyclic_bit_shift y2 3 ^^^ shl32 (ak_uint32_cyclic_bit_shift y0 13) 3) 7)
  have bx2 := xor_lt3 (cyclic_lt x2 3)
    (cyclic_lt
      (x3 ^^^ ak_uint32_cyclic_bit_shift x2 3 ^^^ shl32 (ak_uint32_cyclic_bit_shift x0 13) 3) 7)
    (shl32_lt (ak_uint32_cyclic_bit_shift
      (x1 ^^^ ak_uint32_cyclic_bit_shift x0 13 ^^^ ak_uint32_cyclic_bit_shift x2 3) 1) 7)
  have by2 := xor_lt3 (cyclic_lt y2 3)
    (cyclic_lt
      (y3 ^^^ ak_uint32_cyclic_bit_shift y2 3 ^^^ shl32 (ak_uint32_cyclic_bit_shift y0 13) 3) 7)
    (shl32_lt (ak_uint32_cyclic_bit_shift
      (y1 ^^^ ak_uint32_cyclic_bit_shift y0 13 ^^^ ak_uint32_cyclic_bit_shift y2 3) 1) 7)
  simp only [encrypt_linear, xor4]
  rw [cyclic_xor x0 y0 13 hx0 hy0 (by norm_num) (by norm_num),
    cyclic_xor x2 y2 3 hx2 hy2 (by norm_num) (by norm_num), shl32_xor, xor_shuffle3,
    xor_shuffle3, cyclic_xor _ _ 1 ax1 ay1 (by norm_num) (by norm_num),
    cyclic_xor _ _ 7 ax3 ay3 (by norm_num) (by norm_num), shl32_xor, xor_shuffle3,
    xor_shuffle3, cyclic_xor _ _ 5 bx0 by0 (by norm_num) (by norm_num),
    cyclic_xor _ _ 22 bx2 by2 (by norm_num) (by norm_num)]

/-- C19 at the block of the test and the all-ones state. -/
theorem encrypt_linear_is_linear_witness :
    encrypt_linear (xor4 test_in ⟨0xffffffff, 0xffffffff, 0xffffffff, 0xffffffff⟩)
      = xor4 (encrypt_linear test_in)
          (encrypt_linear ⟨0xffffffff, 0xffffffff, 0xffffffff, 0xffffffff⟩) ∧
    encrypt_linear ⟨0, 0, 0, 0⟩ = ⟨0, 0, 0, 0⟩ :=
  encrypt_linear_is_linear test_in ⟨0xffffffff, 0xffffffff, 0xffffffff, 0xffffffff⟩
    (by decide) (by decide)

/-! ## Claim C16: where the round keys enter the encryption -/

theorem encrypt_round_core_eq (keys : List Nat) (st : EncState) (i : Nat) :
    (encrypt_round keys st i).original_data_part
      = encrypt_round_core i (xor4 st.original_data_part (key_part keys i)) := by
  unfold encrypt_round encrypt_round_core
  split <;> rfl

theorem encrypt_rounds_core (keys : List Nat) (B : Words4) (o : Option Words4) (n : Nat) :
    ((List.range n).foldl (encrypt_round keys) ⟨B, o⟩).original_data_part
      = (List.range n).foldl (fun st i => encrypt_round_core i (xor4 st (key_part keys i))) B := by
  induction n with
  | zero => rfl
  | succ n ih =>
    rw [List.range_succ, List.foldl_append, List.foldl_append, List.foldl_cons, List.foldl_nil,
      List.foldl_cons, List.foldl_nil, encrypt_round_core_eq, ih]

/-- The output of the encryption rounds: every round `i = 0..31` XORs round key `i` into the
state and then applies a map that reads no round key; round key 32 is XORed onto the result. -/
theorem encrypt_rounds_out_core (keys : List Nat) (B : Words4) :
    (encrypt_rounds keys B).out
      = some (xor4
          ((List.range 32).foldl (fun st i => encrypt_round_core i (xor4 st (key_part keys i))) B)
          (key_part keys 32)) := by
  have h32 : List.range 32 = List.range 31 ++ [31] := List.range_succ 31
  rw [encrypt_rounds_out, h32, List.foldl_append, List.foldl_cons, List.foldl_nil,
    encrypt_rounds_core]
  simp [encrypt_round_core]

theorem xor_same_left (y a b : Nat) : (y ^^^ a) ^^^ (y ^^^ b) = a ^^^ b := by
  apply Nat.eq_of_testBit_eq
  intro i
  simp only [Nat.testBit_xor]
  cases y.testBit i <;> cases a.testBit i <;> cases b.testBit i <;> rfl

/-- C16: the block `ak_serpent_encrypt` returns is the XOR of round key 32 with a state that
is computed from the block and round keys `0..31` alone, each round `i` XORing round key `i`
into the state once, before a map that reads no round key; so for two arrays of round keys
that agree on round keys `0..31` the XOR of the two ciphertexts of a block is the XOR of the
two round keys 32. -/
theorem round_key_32_whitening (s : skey) (keys keys1 : List Nat) (B : Words4)
    (hagree : ∀ i, i < 32 → key_part keys i = key_part keys1 i) :
    ∃ C C1, ak_serpent_encrypt { s with data := some keys } B = some C ∧
      ak_serpent_encrypt { s with data := some keys1 } B = some C1 ∧
      xor4 C C1 = xor4 (key_part keys 32) (key_part keys1 32) ∧
      C = xor4
          ((List.range 32).foldl (fun st i => encrypt_round_core i (xor4 st (key_part keys i))) B)
          (key_part keys 32) := by
  have hfold : (List.range 32).foldl
        (fun st i => encrypt_round_core i (xor4 st (key_part keys1 i))) B
      = (List.range 32).foldl
        (fun st i => encrypt_round_core i (xor4 st (key_part keys i))) B := by
    apply List.foldl_ext
    intro st i hi
    rw [hagree i (List.mem_range.mp hi)]
  refine ⟨xor4 ((List.range 32).foldl
      (fun st i => encrypt_round_core i (xor4 st (key_part keys i))) B) (key_part keys 32),
    xor4 ((List.range 32).foldl
      (fun st i => encrypt_round_core i (xor4 st (key_part keys1 i))) B) (key_part keys1 32),
    ?_, ?_, ?_, rfl⟩
  · rw [ak_serpent_encrypt_eq _ keys rfl, encrypt_rounds_out_core]
  · rw [ak_serpent_encrypt_eq _ keys1 rfl, encrypt_rounds_out_core]
  · rw [hfold]
    simp only [xor4, xor_same_left]

set_option maxRecDepth 20000 in
/-- C16 at the block of the test and two arrays of round keys that differ in round key 32. -/
theorem round_key_32_whitening_witness :
    ∃ C C1, ak_serpent_encrypt { test_skey with data := some demo_keys } test_in = some C ∧
      ak_serpent_encrypt { test_skey with data := some demo_keys_other } test_in = some C1 ∧
      xor4 C C1 = xor4 (key_part demo_keys 32) (key_part demo_keys_other 32) ∧
      C = xor4
          ((List.range 32).foldl
            (fun st i => encrypt_round_core i (xor4 st (key_part demo_keys i))) test_in)
          (key_part demo_keys 32) :=
  round_key_32_whitening test_skey demo_keys demo_keys_other test_in (by decide)

/-! ## Claim C18: the key schedule is injective -/

theorem spec_prekey_lt (key : List Nat) (h : ∀ b ∈ key, b < 256) (m : Nat) (hm : m < 140) :
    spec_prekey key m < 2 ^ 32 :=
  ((expand_key_fold key h 132 (le_refl _)).2 m (by omega)).2

/-- The recurrence of the prekeys in terms of the rotation of the code. -/
theorem spec_prekey_step (key : List Nat) (h : ∀ b ∈ key, b < 256) (m : Nat) (h8 : 8 ≤ m)
    (hm : m < 140) :
    spec_prekey key m = ak_uint32_cyclic_bit_shift
      (spec_prekey key (m - 8) ^^^ spec_prekey key (m - 5) ^^^ spec_prekey key (m - 3)
        ^^^ spec_prekey key (m - 1) ^^^ 0x9e3779b9 ^^^ (m - 8)) 11 ∧
    spec_prekey key (m - 8) ^^^ spec_prekey key (m - 5) ^^^ spec_prekey key (m - 3)
        ^^^ spec_prekey key (m - 1) ^^^ 0x9e3779b9 ^^^ (m - 8) < 2 ^ 32 := by
  have hphi : (0x9e3779b9 : Nat) < 2 ^ 32 := by norm_num
  have hidx : m - 8 < 2 ^ 32 := by omega
  have hx : spec_prekey key (m - 8) ^^^ spec_prekey key (m - 5) ^^^ spec_prekey key (m - 3)
      ^^^ spec_prekey key (m - 1) ^^^ 0x9e3779b9 ^^^ (m - 8) < 2 ^ 32 :=
    Nat.xor_lt_two_pow (Nat.xor_lt_two_pow (Nat.xor_lt_two_pow (Nat.xor_lt_two_pow
      (Nat.xor_lt_two_pow (spec_prekey_lt key h _ (by omega)) (spec_prekey_lt key h _ (by omega)))
      (spec_prekey_lt key h _ (by omega))) (spec_prekey_lt key h _ (by omega))) hphi) hidx
  refine ⟨?_, hx⟩
  rw [spec_prekey, dif_neg (by omega), spec_rotl_eq _ 11 hx (by norm_num)]

theorem cyclic_injective (x y s : Nat) (hx : x < 2 ^ 32) (hy : y < 2 ^ 32) (hs0 : 0 < s)
    (hs : s < 32) (h : ak_uint32_cyclic_bit_shift x s = ak_uint32_cyclic_bit_shift y s) :
    x = y := by
  rw [← cyclic_cyclic x s hx hs0 hs, ← cyclic_cyclic y s hy hs0 hs, h]

/-- The prekey recurrence runs backwards: word `m - 8` is determined by words `m - 5`,
`m - 3`, `m - 1` and `m`. -/
theorem spec_prekey_back (K K1 : List Nat) (hb : ∀ b ∈ K, b < 256) (hb1 : ∀ b ∈ K1, b < 256)
    (m : Nat) (h8 : 8 ≤ m) (hm : m < 140) (e0 : spec_prekey K m = spec_prekey K1 m)
    (e5 : spec_prekey K (m - 5) = spec_prekey K1 (m - 5))
    (e3 : spec_prekey K (m - 3) = spec_prekey K1 (m - 3))
    (e1 : spec_prekey K (m - 1) = spec_prekey K1 (m - 1)) :
    spec_prekey K (m - 8) = spec_prekey K1 (m - 8) := by
  obtain ⟨s, hx⟩ := spec_prekey_step K hb m h8 hm
  obtain ⟨s1, hx1⟩ := spec_prekey_step K1 hb1 m h8 hm
  rw [s, s1] at e0
  have h := cyclic_injective _ _ 11 hx hx1 (by norm_num) (by norm_num) e0
  rw [e5, e3, e1] at h
  exact Nat.xor_left_inj.mp (Nat.xor_left_inj.mp (Nat.xor_left_inj.mp
    (Nat.xor_left_inj.mp (Nat.xor_left_inj.mp h))))

theorem prekey_group_wf (key : List Nat) (h : ∀ b ∈ key, b < 256) (i : Nat) (hi : i ≤ 32) :
    (spec_prekey_group key i).wf :=
  ⟨spec_prekey_lt key h _ (by omega), spec_prekey_lt key h _ (by omega),
    spec_prekey_lt key h _ (by omega), spec_prekey_lt key h _ (by omega)⟩

/-- A round key determines its group of four prekey words. -/
theorem prekey_group_of_round_key (K K1 : List Nat) (hb : ∀ b ∈ K, b < 256)
    (hb1 : ∀ b ∈ K1, b < 256) (i : Nat) (hi : i ≤ 32)
    (h : key_part (expanded_keys K) i = key_part (expanded_keys K1) i) :
    spec_prekey_group K i = spec_prekey_group K1 i := by
  rw [key_part_expanded_keys _ _ (by omega), key_part_expanded_keys _ _ (by omega),
    prekey_group_eq _ hb _ hi, prekey_group_eq _ hb1 _ hi] at h
  have hr : (32 + 3 - i) % 8 < 8 := Nat.mod_lt _ (by norm_num)
  have ht : ∀ c, c < 16 → tab serpent_s_box ((32 + 3 - i) % 8) c < 16 ∧
      tab serpent_inv_s_box ((32 + 3 - i) % 8) (tab serpent_s_box ((32 + 3 - i) % 8) c) = c :=
    fun c hc => ⟨(sbox_tables _ hr c hc).1, (sbox_tables _ hr c hc).2.2.1⟩
  rw [← sbox_loop_cancel _ _ _ _ (prekey_group_wf K hb i hi) ht,
    ← sbox_loop_cancel _ _ _ _ (prekey_group_wf K1 hb1 i hi) ht, h]

theorem key_word_bytes (K K1 : List Nat) (hb : ∀ b ∈ K, b < 256) (hb1 : ∀ b ∈ K1, b < 256)
    (m : Nat) (h : spec_key_word K m = spec_key_word K1 m) (k : Nat) (hk : k < 4) :
    K.getD (4 * m + k) 0 = K1.getD (4 * m + k) 0 := by
  unfold spec_key_word at h
  have a0 := getD_lt_of_bytes hb (4 * m)
  have a1 := getD_lt_of_bytes hb (4 * m + 1)
  have a2 := getD_lt_of_bytes hb (4 * m + 2)
  have a3 := getD_lt_of_bytes hb (4 * m + 3)
  have c0 := getD_lt_of_bytes hb1 (4 * m)
  have c1 := getD_lt_of_bytes hb1 (4 * m + 1)
  have c2 := getD_lt_of_bytes hb1 (4 * m + 2)
  have c3 := getD_lt_of_bytes hb1 (4 * m + 3)
  interval_cases k
  · show K.getD (4 * m) 0 = K1.getD (4 * m) 0
    omega
  · omega
  · omega
  · omega

/-- Round keys 0 and 1 determine the key bytes. -/
theorem key_of_round_keys (K K1 : List Nat) (hlen : K.length = 32) (hlen1 : K1.length = 32)
    (hb : ∀ b ∈ K, b < 256) (hb1 : ∀ b ∈ K1, b < 256)
    (h0 : key_part (expanded_keys K) 0 = key_part (expanded_keys K1) 0)
    (h1 : key_part (expanded_keys K) 1 = key_part (expanded_keys K1) 1) : K = K1 := by
  have g0 := prekey_group_of_round_key K K1 hb hb1 0 (by norm_num) h0
  have g1 := prekey_group_of_round_key K K1 hb hb1 1 (by norm_num) h1
  simp only [spec_prekey_group, Words4.mk.injEq] at g0 g1
  obtain ⟨p8, p9, p10, p11⟩ := g0
  obtain ⟨p12, p13, p14, p15⟩ := g1
  have p7 := spec_prekey_back K K1 hb hb1 15 (by norm_num) (by norm_num) p15 p10 p12 p14
  have p6 := spec_prekey_back K K1 hb hb1 14 (by norm_num) (by norm_num) p14 p9 p11 p13
  have p5 := spec_prekey_back K K1 hb hb1 13 (by norm_num) (by norm_num) p13 p8 p10 p12
  have p4 := spec_prekey_back K K1 hb hb1 12 (by norm_num) (by norm_num) p12 p7 p9 p11
  have p3 := spec_prekey_back K K1 hb hb1 11 (by norm_num) (by norm_num) p11 p6 p8 p10
  have p2 := spec_prekey_back K K1 hb hb1 10 (by norm_num) (by norm_num) p10 p5 p7 p9
  have p1 := spec_prekey_back K K1 hb hb1 9 (by norm_num) (by norm_num) p9 p4 p6 p8
  have p0 := spec_prekey_back K K1 hb hb1 8 (by norm_num) (by norm_num) p8 p3 p5 p7
  have hw : ∀ m, m < 8 → spec_key_word K m = spec_key_word K1 m := by
    intro m hm
    have e : spec_prekey K m = spec_prekey K1 m := by
      interval_cases m <;> assumption
    rw [spec_prekey, dif_pos hm, spec_prekey, dif_pos hm] at e
    exact e
  apply List.ext_getElem (by rw [hlen, hlen1])
  intro n hn hn1
  have hg := key_word_bytes K K1 hb hb1 (n / 4) (hw (n / 4) (by omega)) (n % 4)
    (Nat.mod_lt _ (by norm_num))
  have hn4 : 4 * (n / 4) + n % 4 = n := by omega
  rw [hn4, List.getD_eq_getElem _ _ hn, List.getD_eq_getElem _ _ hn1] at hg
  exact hg

/-- C18: for two 32-byte keys, equal round keys 0 and 1 force equal keys, so the key schedule
is injective: on contexts with distinct keys, two successful runs of
`ak_serpent_schedule_keys` store different round keys. -/
theorem schedule_injective (K K1 : List Nat) (hlen : K.length = 32) (hlen1 : K1.length = 32)
    (hb : ∀ b ∈ K, b < 256) (hb1 : ∀ b ∈ K1, b < 256) :
    (key_part (expanded_keys K) 0 = key_part (expanded_keys K1) 0 →
      key_part (expanded_keys K) 1 = key_part (expanded_keys K1) 1 → K = K1) ∧
    (K ≠ K1 → expanded_keys K ≠ expanded_keys K1) ∧
    ∀ (env env1 : Env) (s s1 : skey), s.key = K → s1.key = K1 → K ≠ K1 →
      (ak_serpent_schedule_keys env (some s)).error = .ak_error_ok →
      (ak_serpent_schedule_keys env1 (some s1)).error = .ak_error_ok →
      Option.bind (ak_serpent_schedule_keys env (some s)).skey skey.data
        ≠ Option.bind (ak_serpent_schedule_keys env1 (some s1)).skey skey.data := by
  have hne : K ≠ K1 → expanded_keys K ≠ expanded_keys K1 := by
    intro hK he
    exact hK (key_of_round_keys K K1 hlen hlen1 hb hb1 (by rw [he]) (by rw [he]))
  refine ⟨key_of_round_keys K K1 hlen hlen1 hb hb1, hne, ?_⟩
  intro env env1 s s1 hs hs1 hK h h1
  rw [schedule_keys_data_of_ok env s h, schedule_keys_data_of_ok env1 s1 h1, hs, hs1]
  intro he
  exact hne hK (Option.some.inj he)

/-- C18 at the key of the test and the all-zero key. -/
theorem schedule_injective_witness :
    (key_part (expanded_keys test_key) 0 = key_part (expanded_keys (List.replicate 32 0)) 0 →
      key_part (expanded_keys test_key) 1 = key_part (expanded_keys (List.replicate 32 0)) 1 →
      test_key = List.replicate 32 0) ∧
    (test_key ≠ List.replicate 32 0 →
      expanded_keys test_key ≠ expanded_keys (List.replicate 32 0)) ∧
    ∀ (env env1 : Env) (s s1 : skey), s.key = test_key → s1.key = List.replicate 32 0 →
      test_key ≠ List.replicate 32 0 →
      (ak_serpent_schedule_keys env (some s)).error = .ak_error_ok →
      (ak_serpent_schedule_keys env1 (some s1)).error = .ak_error_ok →
      Option.bind (ak_serpent_schedule_keys env (some s)).skey skey.data
        ≠ Option.bind (ak_serpent_schedule_keys env1 (some s1)).skey skey.data :=
  schedule_injective test_key (List.replicate 32 0) (by decide) (by decide) (by decide)
    (by decide)

/-! ## Claim C20: no array access leaves its bounds -/

theorem foldlM_option_eq {α β : Type} (f : β → α → Option β) (g : β → α → β) (l : List α)
    (h : ∀ b, ∀ a ∈ l, f b a = some (g b a)) (b : β) :
    l.foldlM f b = some (l.foldl g b) := by
  induction l generalizing b with
  | nil => rfl
  | cons a l ih =>
    rw [List.foldlM_cons, h b a (List.mem_cons_self _ _)]
    exact ih (fun b x hx => h b x (List.mem_cons_of_mem _ hx)) (g b a)

set_option maxRecDepth 20000 in
theorem tab_checked_eq : ∀ r, r < 8 → ∀ c, c < 16 →
    tab_checked serpent_s_box r c = some (tab serpent_s_box r c) ∧
    tab_checked serpent_inv_s_box r c = some (tab serpent_inv_s_box r c) := by
  decide

theorem sbox_loop_checked_eq (i : Nat) (src acc : Words4) :
    sbox_loop_checked serpent_s_box (i % 8) src acc
      = some (sbox_loop serpent_s_box (i % 8) src acc) ∧
    sbox_loop_checked serpent_inv_s_box (i % 8) src acc
      = some (sbox_loop serpent_inv_s_box (i % 8) src acc) := by
  have hr : i % 8 < 8 := Nat.mod_lt _ (by norm_num)
  constructor
  · apply foldlM_option_eq
    intro b j _
    simp only [sbox_step_checked, (tab_checked_eq _ hr _ (gather_lt src j)).1, Option.map_some']
    rfl
  · apply foldlM_option_eq
    intro b j _
    simp only [sbox_step_checked, (tab_checked_eq _ hr _ (gather_lt src j)).2, Option.map_some']
    rfl

theorem getElem?_eq_some_getD (l : List Nat) (n : Nat) (h : n < l.length) :
    l[n]? = some (l.getD n 0) := by
  rw [List.getD_eq_getElem _ _ h, List.getElem?_eq_getElem h]

theorem key_part_checked_eq (keys : List Nat) (hlen : keys.length = 132) (i : Nat)
    (hi : i ≤ 32) : key_part_checked keys i = some (key_part keys i) := by
  simp only [key_part_checked, hi, if_true, key_part,
    getElem?_eq_some_getD keys (4 * i) (by omega),
    getElem?_eq_some_getD keys (4 * i + 1) (by omega),
    getElem?_eq_some_getD keys (4 * i + 2) (by omega),
    getElem?_eq_some_getD keys (4 * i + 3) (by omega)]
  rfl

theorem encrypt_rounds_checked_eq (keys : List Nat) (hlen : keys.length = 132)
    (inp : Words4) : encrypt_rounds_checked keys inp = some (encrypt_rounds keys inp) := by
  apply foldlM_option_eq
  intro st i hi
  have hi32 : i < 32 := List.mem_range.mp hi
  simp only [encrypt_round_checked, key_part_checked_eq keys hlen i (by omega),
    key_part_checked_eq keys hlen 32 (le_refl _), (sbox_loop_checked_eq i _ _).1,
    encrypt_round]
  by_cases h : i < 31 <;> simp [h]

theorem decrypt_rounds_checked_eq (keys : List Nat) (hlen : keys.length = 132)
    (inp : Words4) : decrypt_rounds_checked keys inp = some (decrypt_rounds keys inp) := by
  apply foldlM_option_eq
  intro st i hi
  have hi32 : i < 32 := List.mem_range.mp (List.mem_reverse.mp hi)
  by_cases h : i < 31
  · have hne : i ≠ 31 := by omega
    simp [decrypt_round_checked, decrypt_round, h, hne,
      key_part_checked_eq keys hlen i (by omega), (sbox_loop_checked_eq i _ _).2]
  · have he : i = 31 := by omega
    subst he
    simp [decrypt_round_checked, decrypt_round,
      key_part_checked_eq keys hlen 31 (by norm_num),
      key_part_checked_eq keys hlen 32 (le_refl _), (sbox_loop_checked_eq 31 _ _).2]

theorem getElem?_map_range (P : Nat → Nat) (n m : Nat) (h : m < n) :
    ((List.range n).map P)[m]? = some (P m) := by
  rw [List.getElem?_map, List.getElem?_range h]
  rfl

theorem prekey_write_eq (odk : List Nat) (i v : Nat) (h1 : i < 140) (h2 : i = odk.length) :
    prekey_write odk i v = some (odk ++ [v]) := by
  unfold prekey_write
  rw [if_pos ⟨h1, h2⟩]

theorem load_key_checked_fold (key : List Nat) (hlen : key.length = 32)
    (hb : ∀ b ∈ key, b < 256) (n : Nat) (hn : n ≤ 8) :
    (List.range n).foldlM (fun odk i => do
      let b0 ← key[i * 4 + 0]?
      let b1 ← key[i * 4 + 1]?
      let b2 ← key[i * 4 + 2]?
      let b3 ← key[i * 4 + 3]?
      prekey_write odk i (b0 % 256 + 2 ^ 8 * (b1 % 256) + 2 ^ 16 * (b2 % 256)
        + 2 ^ 24 * (b3 % 256))) []
      = some ((List.range n).map (spec_prekey key)) := by
  induction n with
  | zero => rfl
  | succ n ih =>
    have hsp : key.getD (n * 4 + 0) 0 % 256 + 2 ^ 8 * (key.getD (n * 4 + 1) 0 % 256)
        + 2 ^ 16 * (key.getD (n * 4 + 2) 0 % 256) + 2 ^ 24 * (key.getD (n * 4 + 3) 0 % 256)
        = spec_prekey key n := by
      have e0 : n * 4 + 0 = 4 * n := by omega
      have e1 : n * 4 + 1 = 4 * n + 1 := by omega
      have e2 : n * 4 + 2 = 4 * n + 2 := by omega
      have e3 : n * 4 + 3 = 4 * n + 3 := by omega
      rw [spec_prekey, dif_pos (by omega), spec_key_word, e0, e1, e2, e3,
        Nat.mod_eq_of_lt (getD_lt_of_bytes hb _), Nat.mod_eq_of_lt (getD_lt_of_bytes hb _),
        Nat.mod_eq_of_lt (getD_lt_of_bytes hb _), Nat.mod_eq_of_lt (getD_lt_of_bytes hb _)]
    rw [List.range_succ, List.foldlM_append, ih (by omega)]
    simp only [Option.some_bind, Option.bind_eq_bind, List.foldlM_cons, List.foldlM_nil,
      getElem?_eq_some_getD key (n * 4 + 0) (by omega),
      getElem?_eq_some_getD key (n * 4 + 1) (by omega),
      getElem?_eq_some_getD key (n * 4 + 2) (by omega),
      getElem?_eq_some_getD key (n * 4 + 3) (by omega), hsp]
    rw [prekey_write_eq _ _ _ (by omega) (by simp), List.map_append, List.map_singleton]
    rfl

theorem expand_key_checked_fold (key : List Nat) (hb : ∀ b ∈ key, b < 256) (n : Nat)
    (hn : n ≤ 132) :
    (List.range' 8 n).foldlM (fun odk i => do
      let p8 ← odk[i - 8]?
      let p5 ← odk[i - 5]?
      let p3 ← odk[i - 3]?
      let p1 ← odk[i - 1]?
      prekey_write odk i
        (ak_uint32_cyclic_bit_shift (p8 ^^^ p5 ^^^ p3 ^^^ p1 ^^^ phi ^^^ (i - 8)) 11))
        ((List.range 8).map (spec_prekey key))
      = some ((List.range (8 + n)).map (spec_prekey key)) := by
  induction n with
  | zero => rfl
  | succ n ih =>
    have hstep := (spec_prekey_step key hb (8 + 1 * n) (by omega) (by omega)).1
    rw [List.range'_concat, List.foldlM_append, ih (by omega)]
    simp only [Option.some_bind, Option.bind_eq_bind, List.foldlM_cons, List.foldlM_nil,
      getElem?_map_range (spec_prekey key) (8 + n) (8 + 1 * n - 8) (by omega),
      getElem?_map_range (spec_prekey key) (8 + n) (8 + 1 * n - 5) (by omega),
      getElem?_map_range (spec_prekey key) (8 + n) (8 + 1 * n - 3) (by omega),
      getElem?_map_range (spec_prekey key) (8 + n) (8 + 1 * n - 1) (by omega), phi, ← hstep]
    have e : 8 + (n + 1) = (8 + n) + 1 := by omega
    have e1 : 8 + 1 * n = 8 + n := by omega
    rw [prekey_write_eq _ _ _ (by omega) (by simp), e, List.range_succ, List.map_append,
      List.map_singleton, e1]
    rfl

theorem original_divided_key_eq_map (key : List Nat) (hb : ∀ b ∈ key, b < 256) :
    original_divided_key key = (List.range 140).map (spec_prekey key) := by
  have hlen : (original_divided_key key).length = 140 :=
    (expand_key_fold key hb 132 (le_refl _)).1
  apply List.ext_getElem
  · simp [hlen]
  · intro m h1 h2
    rw [hlen] at h1
    have h := getD_original_divided_key key hb m h1
    rw [List.getD_eq_getElem _ _ (by rw [hlen]; exact h1)] at h
    simp [h]

theorem prekey_group_checked_eq (odk : List Nat) (hlen : odk.length = 140) (i : Nat)
    (hi : i ≤ 32) : prekey_group_checked odk i = some (prekey_group odk i) := by
  simp only [prekey_group_checked, prekey_group,
    getElem?_eq_some_getD odk (8 + 0 + 4 * i) (by omega),
    getElem?_eq_some_getD odk (8 + 1 + 4 * i) (by omega),
    getElem?_eq_some_getD odk (8 + 2 + 4 * i) (by omega),
    getElem?_eq_some_getD odk (8 + 3 + 4 * i) (by omega)]
  rfl

theorem sub_keys_row_checked_eq (odk : List Nat) (hlen : odk.length = 140) (i : Nat)
    (hi : i ≤ 32) :
    (List.range 32).foldlM (schedule_step_checked odk i) ⟨0, 0, 0, 0⟩
      = some (sub_keys_row odk i) := by
  apply foldlM_option_eq
  intro acc j _
  simp only [schedule_step_checked, prekey_group_checked_eq odk hlen i hi,
    Option.some_bind, Option.bind_eq_bind,
    (tab_checked_eq _ (Nat.mod_lt _ (by norm_num)) _ (gather_lt (prekey_group odk i) j)).1,
    schedule_step]
  rfl

theorem sub_keys_checked_fold (odk : List Nat) (hlen : odk.length = 140) (n : Nat)
    (hn : n ≤ 33) :
    (List.range n).foldlM (fun rows i =>
      if i ≤ 32 then
        ((List.range 32).foldlM (schedule_step_checked odk i) ⟨0, 0, 0, 0⟩).map
          fun row => rows ++ [row]
      else none) []
      = some ((List.range n).map (sub_keys_row odk)) := by
  induction n with
  | zero => rfl
  | succ n ih =>
    have hle : n ≤ 32 := by omega
    rw [List.range_succ n, List.foldlM_append, ih (by omega)]
    simp only [Option.some_bind, Option.bind_eq_bind, List.foldlM_cons, List.foldlM_nil, hle,
      if_true, sub_keys_row_checked_eq odk hlen n hle, Option.map_some', List.map_append,
      List.map_singleton]
    rfl

theorem expanded_keys_checked_eq (key : List Nat) (hlen : key.length = 32)
    (hb : ∀ b ∈ key, b < 256) : expanded_keys_checked key = some (expanded_keys key) := by
  have h1 : load_key_checked key = some ((List.range 8).map (spec_prekey key)) :=
    load_key_checked_fold key hlen hb 8 (le_refl _)
  have h2 : expand_key_checked ((List.range 8).map (spec_prekey key))
      = some (original_divided_key key) := by
    rw [original_divided_key_eq_map key hb]
    exact expand_key_checked_fold key hb 132 (le_refl _)
  have h3 : sub_keys_checked (original_divided_key key)
      = some (sub_keys (original_divided_key key)) :=
    sub_keys_checked_fold _ (expand_key_fold key hb 132 (le_refl _)).1 33 (le_refl _)
  simp only [expanded_keys_checked, h1, h2, h3, Option.some_bind, Option.bind_eq_bind,
    expanded_keys]
  rfl

/-- C20: with every table, prekey and round-key access checked (S-box row in `0..7` and
column in `0..15`, prekey index in `0..139` and below the number of words written so far,
round key in `0..32`), the key schedule on every 32-byte key and the encryption and the
decryption rounds on every array of 33 round keys and every block never fail, and return what
the unchecked embedding returns; in particular the row `(32 + 3 - i) mod 8` of the schedule is
in `0..7` for every `i = 0..32`. -/
theorem index_safety :
    (∀ i, i ≤ 32 → (32 + 3 - i) % 8 < 8) ∧
    (∀ key : List Nat, key.length = 32 → (∀ b ∈ key, b < 256) →
      expanded_keys_checked key = some (expanded_keys key)) ∧
    (∀ (keys : List Nat) (inp : Words4), keys.length = 33 * 4 →
      encrypt_rounds_checked keys inp = some (encrypt_rounds keys inp)) ∧
    (∀ (keys : List Nat) (inp : Words4), keys.length = 33 * 4 →
      decrypt_rounds_checked keys inp = some (decrypt_rounds keys inp)) :=
  ⟨fun i _ => Nat.mod_lt _ (by norm_num), expanded_keys_checked_eq,
    fun keys inp h => encrypt_rounds_checked_eq keys h inp,
    fun keys inp h => decrypt_rounds_checked_eq keys h inp⟩

/-! ## Claim C9 amended: the context after a failed key schedule -/

/-- C9 amended: when `ak_serpent_schedule_keys` returns an error on a non-null context, either
the key length or the integrity check failed, and then the context is exactly as before the
call, nothing was freed and nothing allocated; or both checks passed and the allocation
failed, and then the context holds no expanded keys and a block held before the call went
through `ak_serpent_delete_keys`: it is the one block passed to `free`, holding what the wipe
left in it, or zero words over the size of a schedule when the wipe failed (all of it zero
for a block of 33 round keys). -/
theorem failed_schedule_state (env : Env) (s : skey)
    (herr : (ak_serpent_schedule_keys env (some s)).error ≠ .ak_error_ok) :
    ((s.key_size ≠ 32 ∨ s.check_icode = false) ∧
      ak_serpent_schedule_keys env (some s)
        = ⟨(ak_serpent_schedule_keys env (some s)).error, some s, [], 0⟩) ∨
    (s.key_size = 32 ∧ s.check_icode = true ∧
      env.ak_aligned_malloc sizeof_expanded_keys = false ∧
      (ak_serpent_schedule_keys env (some s)).error = .ak_error_out_of_memory ∧
      (∃ s1, (ak_serpent_schedule_keys env (some s)).skey = some s1 ∧ s1.data = none) ∧
      (s.data = none → (ak_serpent_schedule_keys env (some s)).freed = []) ∧
      (∀ d, s.data = some d →
        (ak_serpent_schedule_keys env (some s)).freed
          = [if (env.ak_ptr_wipe d sizeof_expanded_keys s.generator).error = .ak_error_ok then
              store_words d 0 (sizeof_expanded_keys / 4)
                (env.ak_ptr_wipe d sizeof_expanded_keys s.generator).written
            else
              store_words (store_words d 0 (sizeof_expanded_keys / 4)
                (env.ak_ptr_wipe d sizeof_expanded_keys s.generator).written)
                0 (sizeof_expanded_keys / 4) []]) ∧
      (∀ d, s.data = some d → d.length = 33 * 4 →
        (env.ak_ptr_wipe d sizeof_expanded_keys s.generator).error ≠ .ak_error_ok →
        (ak_serpent_schedule_keys env (some s)).freed = [List.replicate (33 * 4) 0])) := by
  by_cases hsize : s.key_size = 32
  · cases hic : s.check_icode
    · left
      simp [ak_serpent_schedule_keys, hsize, hic]
    · cases hmem : env.ak_aligned_malloc sizeof_expanded_keys
      · right
        have hfreed : ∀ d, s.data = some d →
            (ak_serpent_schedule_keys env (some s)).freed
              = [if (env.ak_ptr_wipe d sizeof_expanded_keys s.generator).error = .ak_error_ok then
                  store_words d 0 (sizeof_expanded_keys / 4)
                    (env.ak_ptr_wipe d sizeof_expanded_keys s.generator).written
                else
                  store_words (store_words d 0 (sizeof_expanded_keys / 4)
                    (env.ak_ptr_wipe d sizeof_expanded_keys s.generator).written)
                    0 (sizeof_expanded_keys / 4) []] := by
          intro d hd
          by_cases he : (env.ak_ptr_wipe d sizeof_expanded_keys s.generator).error
              = .ak_error_ok
          · simp [ak_serpent_schedule_keys, ak_serpent_delete_keys, hsize, hic, hmem, hd, he]
          · simp [ak_serpent_schedule_keys, ak_serpent_delete_keys, hsize, hic, hmem, hd, he]
        refine ⟨hsize, rfl, rfl, ?_, ?_, ?_, hfreed, ?_⟩
        · simp [ak_serpent_schedule_keys, hsize, hic, hmem, ak_error_message]
        · cases hd : s.data <;>
            simp [ak_serpent_schedule_keys, ak_serpent_delete_keys, hsize, hic, hmem, hd]
        · intro hd
          simp [ak_serpent_schedule_keys, hsize, hic, hmem, hd]
        · intro d hd hlen he
          have hz := store_words_zero
            (store_words d 0 (sizeof_expanded_keys / 4)
              (env.ak_ptr_wipe d sizeof_expanded_keys s.generator).written)
            (sizeof_expanded_keys / 4) (by rw [length_store_words, hlen]; decide)
          rw [length_store_words, hlen] at hz
          rw [hfreed d hd, if_neg he, hz]
      · obtain ⟨g, freed, hs⟩ := schedule_keys_ok env s hsize hic hmem
        rw [hs] at herr
        exact absurd rfl herr
  · left
    simp [ak_serpent_schedule_keys, hsize]

/-- C9 amended, at the scheduled context of the test when the allocation and the wipe fail:
the context ends without a schedule and the freed block holds 132 zero words. -/
theorem failed_schedule_state_witness :
    ((test_scheduled.key_size ≠ 32 ∨ test_scheduled.check_icode = false) ∧
      ak_serpent_schedule_keys failing_alloc_env (some test_scheduled)
        = ⟨(ak_serpent_schedule_keys failing_alloc_env (some test_scheduled)).error, some test_scheduled, [], 0⟩) ∨
    (test_scheduled.key_size = 32 ∧ test_scheduled.check_icode = true ∧
      failing_alloc_env.ak_aligned_malloc sizeof_expanded_keys = false ∧
      (ak_serpent_schedule_keys failing_alloc_env (some test_scheduled)).error = .ak_error_out_of_memory ∧
      (∃ s1, (ak_serpent_schedule_keys failing_alloc_env (some test_scheduled)).skey = some s1 ∧ s1.data = none) ∧
      (test_scheduled.data = none → (ak_serpent_schedule_keys failing_alloc_env (some test_scheduled)).freed = []) ∧
      (∀ d, test_scheduled.data = some d →
        (ak_serpent_schedule_keys failing_alloc_env (some test_scheduled)).freed
          = [if (failing_alloc_env.ak_ptr_wipe d sizeof_expanded_keys test_scheduled.generator).error = .ak_error_ok then
              store_words d 0 (sizeof_expanded_keys / 4)
                (failing_alloc_env.ak_ptr_wipe d sizeof_expanded_keys test_scheduled.generator).written
            else
              store_words (store_words d 0 (sizeof_expanded_keys / 4)
                (failing_alloc_env.ak_ptr_wipe d sizeof_expanded_keys test_scheduled.generator).written)
                0 (sizeof_expanded_keys / 4) []]) ∧
      (∀ d, test_scheduled.data = some d → d.length = 33 * 4 →
        (failing_alloc_env.ak_ptr_wipe d sizeof_expanded_keys test_scheduled.generator).error ≠ .ak_error_ok →
        (ak_serpent_schedule_keys failing_alloc_env (some test_scheduled)).freed = [List.replicate (33 * 4) 0])) :=
  failed_schedule_state failing_alloc_env test_scheduled
    (by simp [ak_serpent_schedule_keys, ak_serpent_delete_keys, ak_error_message,
      test_scheduled, test_skey, failing_alloc_env, failing_wipe_env, sizeof_expanded_keys])

end Serpent
